import Mathlib

/-!
Verification of the SmartCon360 Takt Scheduling & Risk Simulation Engine.

Shallow embedding of the core simulation engine
(`services/takt-service/src/modules/simulation/core/simulator.py`, with the
flowline today-marker of `services/takt-engine/src/main.py` and the request
schemas of `modules/simulation/models/schemas.py`).

Modelling conventions:
* Calendar dates are day numbers (`Nat`); `weekday d = d % 7` with `0` playing
  the role of Python's Monday (`date.weekday() = 0`).  Adding one calendar day
  is `d + 1`, exactly matching `d += timedelta(days=1)`.
* Python `int` is `Int`, Python `float` is `ℚ` (the float computations the
  claims touch are far from any rounding boundary).
* Python's banker's rounding `round` is `rhe` below.
* `dict[str, int]` values are association lists built with a replace-or-append
  update, so key lookup (`dictLookup`) agrees with Python dict semantics.
-/

-- Batteries marks the rational-number operations `@[irreducible]`; the
-- counterexample and witness evaluations below compute concrete pipeline runs
-- with `decide`, which needs the kernel to unfold them.
set_option allowUnsafeReducibility true in
attribute [semireducible] Rat.add Rat.mul Rat.inv Rat.sub Rat.ofScientific

/-- `_next_working_day`'s while loop with explicit fuel, one unit per executed
iteration: `while d.weekday() not in working_days: d += 1`. -/
def nextWorkingDayFuel : Nat → Nat → List Nat → Option Nat
  | 0, _, _ => none
  | fuel + 1, d, wd => if d % 7 ∈ wd then some d else nextWorkingDayFuel fuel (d + 1) wd

/-- `TaktSimulator._next_working_day`.  Seven iterations of the loop always
suffice when some weekday is a working day (see `nextWorkingDayFuel_seven`). -/
def nextWorkingDay (d : Nat) (wd : List Nat) : Nat :=
  (nextWorkingDayFuel 7 d wd).getD d

/-- The working-day set contains at least one actual weekday (a value in 0–6);
this is the precondition under which the date loops of the simulator hit a
working day. -/
def hasWeekday (wd : List Nat) : Prop := ∃ k ∈ wd, k < 7

instance (wd : List Nat) : Decidable (hasWeekday wd) := by
  unfold hasWeekday; infer_instance

/-- The second loop of `_add_working_days`: starting from `c` (already a
working day), repeat `days` times: advance one day at a time until the next
working day. -/
def addGo (wd : List Nat) : Nat → Nat → Nat
  | 0, c => c
  | n + 1, c => addGo wd n (nextWorkingDay (c + 1) wd)

/-- `TaktSimulator._add_working_days`: returns `start` for `days <= 0`,
otherwise snaps `start` to a working day and then advances `days` working
days. -/
def addWorkingDays (start : Nat) (days : Int) (wd : List Nat) : Nat :=
  if days ≤ 0 then start else addGo wd days.toNat (nextWorkingDay start wd)

/-- The second loop of `_add_working_days` with explicit fuel, one unit per
day-increment of `current`. -/
def addWDLoopFuel (wd : List Nat) : Nat → Nat → Nat → Option Nat
  | _, c, 0 => some c
  | 0, _, _ + 1 => none
  | fuel + 1, c, rem + 1 =>
      if (c + 1) % 7 ∈ wd then addWDLoopFuel wd fuel (c + 1) rem
      else addWDLoopFuel wd fuel (c + 1) (rem + 1)

/-- `TaktSimulator._add_working_days` as a fuelled loop embedding (both while
loops step one calendar day per fuel unit). -/
def addWorkingDaysFuel (wd : List Nat) (start : Nat) (days : Int) : Option Nat :=
  if days ≤ 0 then some start
  else
    match nextWorkingDayFuel 7 start wd with
    | none => none
    | some c => addWDLoopFuel wd (7 * days.toNat) c days.toNat

/-- The counting loop of `_working_days_between`: number of working days among
`s, s+1, …, s+n-1`. -/
def countWorkingFrom (wd : List Nat) : Nat → Nat → Nat
  | _, 0 => 0
  | s, n + 1 => (if s % 7 ∈ wd then 1 else 0) + countWorkingFrom wd (s + 1) n

/-- `TaktSimulator._working_days_between` (both endpoints inclusive). -/
def workingDaysBetween (start e : Nat) (wd : List Nat) : Nat :=
  if e < start then 0 else countWorkingFrom wd start (e + 1 - start)

-- ---------------------------------------------------------------------------
-- Lemmas about the calendar helpers
-- ---------------------------------------------------------------------------

theorem nextWorkingDayFuel_some {wd : List Nat} :
    ∀ {fuel d r : Nat}, nextWorkingDayFuel fuel d wd = some r →
      d ≤ r ∧ r < d + fuel ∧ r % 7 ∈ wd ∧ ∀ e, d ≤ e → e < r → e % 7 ∉ wd := by
  intro fuel
  induction fuel with
  | zero => intro d r h; simp [nextWorkingDayFuel] at h
  | succ n ih =>
      intro d r h
      by_cases hd : d % 7 ∈ wd
      · simp [nextWorkingDayFuel, hd] at h
        subst h
        exact ⟨le_refl _, by omega, hd, fun e h1 h2 => absurd h1 (by omega)⟩
      · simp [nextWorkingDayFuel, hd] at h
        obtain ⟨h1, h2, h3, h4⟩ := ih h
        refine ⟨by omega, by omega, h3, ?_⟩
        intro e he1 he2
        rcases Nat.eq_or_lt_of_le he1 with rfl | hlt
        · exact hd
        · exact h4 e hlt he2

theorem exists_hit_within_seven {wd : List Nat} (h : hasWeekday wd) (d : Nat) :
    ∃ i, i < 7 ∧ (d + i) % 7 ∈ wd := by
  obtain ⟨k, hk, hk7⟩ := h
  by_cases hle : d % 7 ≤ k
  · refine ⟨k - d % 7, by omega, ?_⟩
    have : (d + (k - d % 7)) % 7 = k := by omega
    rw [this]; exact hk
  · refine ⟨7 + k - d % 7, by omega, ?_⟩
    have : (d + (7 + k - d % 7)) % 7 = k := by omega
    rw [this]; exact hk

theorem nextWorkingDayFuel_isSome {wd : List Nat} (h : hasWeekday wd) :
    ∀ fuel d, (∃ i, i < fuel ∧ (d + i) % 7 ∈ wd) →
      (nextWorkingDayFuel fuel d wd).isSome := by
  intro fuel
  induction fuel with
  | zero => intro d ⟨i, hi, _⟩; omega
  | succ n ih =>
      intro d ⟨i, hi, hmem⟩
      by_cases hd : d % 7 ∈ wd
      · simp [nextWorkingDayFuel, hd]
      · have hi0 : i ≠ 0 := by rintro rfl; simp at hmem; exact hd hmem
        simp only [nextWorkingDayFuel, hd, if_false]
        exact ih (d + 1) ⟨i - 1, by omega, by have : d + 1 + (i - 1) = d + i := by omega
                                              rw [this]; exact hmem⟩

theorem nextWorkingDayFuel_seven {wd : List Nat} (h : hasWeekday wd) (d : Nat) :
    nextWorkingDayFuel 7 d wd = some (nextWorkingDay d wd) := by
  have hs := nextWorkingDayFuel_isSome h 7 d (exists_hit_within_seven h d)
  rw [nextWorkingDay]
  cases heq : nextWorkingDayFuel 7 d wd with
  | none => rw [heq] at hs; simp at hs
  | some r => simp

theorem nextWorkingDay_ge (d : Nat) (wd : List Nat) : d ≤ nextWorkingDay d wd := by
  rw [nextWorkingDay]
  cases heq : nextWorkingDayFuel 7 d wd with
  | none => simp
  | some r => simpa using (nextWorkingDayFuel_some heq).1

theorem nextWorkingDay_mem {wd : List Nat} (h : hasWeekday wd) (d : Nat) :
    nextWorkingDay d wd % 7 ∈ wd := by
  have := nextWorkingDayFuel_seven h d
  exact (nextWorkingDayFuel_some this).2.2.1

theorem nextWorkingDay_min {wd : List Nat} (h : hasWeekday wd) (d : Nat) :
    ∀ e, d ≤ e → e < nextWorkingDay d wd → e % 7 ∉ wd := by
  have := nextWorkingDayFuel_seven h d
  exact (nextWorkingDayFuel_some this).2.2.2

theorem nextWorkingDay_id {wd : List Nat} {d : Nat} (h : d % 7 ∈ wd) :
    nextWorkingDay d wd = d := by
  simp [nextWorkingDay, nextWorkingDayFuel, h]

theorem addGo_ge (wd : List Nat) : ∀ n c, c + n ≤ addGo wd n c := by
  intro n
  induction n with
  | zero => intro c; simp [addGo]
  | succ m ih =>
      intro c
      have h1 : c + 1 ≤ nextWorkingDay (c + 1) wd := nextWorkingDay_ge _ _
      have h2 := ih (nextWorkingDay (c + 1) wd)
      simp only [addGo]; omega

theorem addGo_mem (wd : List Nat) (h : hasWeekday wd) :
    ∀ n c, c % 7 ∈ wd → addGo wd n c % 7 ∈ wd := by
  intro n
  induction n with
  | zero => intro c hc; simpa [addGo] using hc
  | succ m ih =>
      intro c _
      simp only [addGo]
      exact ih _ (nextWorkingDay_mem h (c + 1))

theorem addWorkingDays_ge (start : Nat) (days : Int) (wd : List Nat) :
    start ≤ addWorkingDays start days wd := by
  rw [addWorkingDays]
  split
  · exact le_refl _
  · have h1 := nextWorkingDay_ge start wd
    have h2 := addGo_ge wd days.toNat (nextWorkingDay start wd)
    omega

theorem addWorkingDays_pos_gt (start : Nat) {days : Int} (hd : 1 ≤ days)
    (wd : List Nat) : start < addWorkingDays start days wd := by
  rw [addWorkingDays]
  rw [if_neg (by omega)]
  have h1 := nextWorkingDay_ge start wd
  have h2 := addGo_ge wd days.toNat (nextWorkingDay start wd)
  omega

theorem addWorkingDays_mem {wd : List Nat} (h : hasWeekday wd) (start : Nat)
    {days : Int} (hd : 1 ≤ days) : addWorkingDays start days wd % 7 ∈ wd := by
  rw [addWorkingDays, if_neg (by omega)]
  exact addGo_mem wd h _ _ (nextWorkingDay_mem h start)

theorem addWorkingDays_nonpos (start : Nat) {days : Int} (hd : days ≤ 0)
    (wd : List Nat) : addWorkingDays start days wd = start := by
  rw [addWorkingDays, if_pos hd]

theorem countWorkingFrom_add (wd : List Nat) :
    ∀ n m s, countWorkingFrom wd s (n + m) =
      countWorkingFrom wd s n + countWorkingFrom wd (s + n) m := by
  intro n
  induction n with
  | zero => intro m s; simp [countWorkingFrom]
  | succ k ih =>
      intro m s
      have : k + 1 + m = (k + m) + 1 := by omega
      rw [this]
      simp only [countWorkingFrom, ih]
      have : s + 1 + k = s + (k + 1) := by omega
      rw [this]
      omega

theorem countWorkingFrom_le (wd : List Nat) :
    ∀ n s, countWorkingFrom wd s n ≤ n := by
  intro n
  induction n with
  | zero => intro s; simp [countWorkingFrom]
  | succ k ih =>
      intro s
      have := ih (s + 1)
      simp only [countWorkingFrom]
      split <;> omega

theorem countWorkingFrom_zero_of_none (wd : List Nat) :
    ∀ n s, (∀ x, s ≤ x → x < s + n → x % 7 ∉ wd) → countWorkingFrom wd s n = 0 := by
  intro n
  induction n with
  | zero => intro s _; simp [countWorkingFrom]
  | succ k ih =>
      intro s hnone
      have h0 : s % 7 ∉ wd := hnone s (le_refl _) (by omega)
      simp only [countWorkingFrom, if_neg h0]
      have hrest : countWorkingFrom wd (s + 1) k = 0 := by
        apply ih
        intro x h1 h2
        exact hnone x (by omega) (by omega)
      omega

theorem countWorkingFrom_all (wd : List Nat) :
    ∀ n s, (∀ x, s ≤ x → x < s + n → x % 7 ∈ wd) → countWorkingFrom wd s n = n := by
  intro n
  induction n with
  | zero => intro s _; simp [countWorkingFrom]
  | succ k ih =>
      intro s hall
      have h0 : s % 7 ∈ wd := hall s (le_refl _) (by omega)
      simp only [countWorkingFrom, if_pos h0]
      have := ih (s + 1) (fun x h1 h2 => hall x (by omega) (by omega))
      omega

/-- `workingDaysBetween s · wd` is monotone in its second argument. -/
theorem workingDaysBetween_mono (wd : List Nat) (s : Nat) {a b : Nat} (h : a ≤ b) :
    workingDaysBetween s a wd ≤ workingDaysBetween s b wd := by
  rw [workingDaysBetween, workingDaysBetween]
  split
  · omega
  · rw [if_neg (by omega)]
    have hsplit : b + 1 - s = (a + 1 - s) + (b - a) := by omega
    rw [hsplit, countWorkingFrom_add]
    omega

theorem workingDaysBetween_self {wd : List Nat} {s : Nat} (h : s % 7 ∈ wd) :
    workingDaysBetween s s wd = 1 := by
  rw [workingDaysBetween, if_neg (by omega)]
  have : s + 1 - s = 1 := by omega
  rw [this]
  simp [countWorkingFrom, h]

/-- Counting step: moving from a day `c ≥ s` to the first working day after it
adds exactly one to the inclusive working-day count from `s`. -/
theorem workingDaysBetween_step {wd : List Nat} (h : hasWeekday wd) {s c : Nat}
    (hc : s ≤ c) :
    workingDaysBetween s (nextWorkingDay (c + 1) wd) wd =
      workingDaysBetween s c wd + 1 := by
  set N := nextWorkingDay (c + 1) wd with hN
  have hge : c + 1 ≤ N := nextWorkingDay_ge (c + 1) wd
  have hmem : N % 7 ∈ wd := nextWorkingDay_mem h (c + 1)
  have hmin := nextWorkingDay_min h (c + 1)
  rw [workingDaysBetween, workingDaysBetween, if_neg (by omega), if_neg (by omega)]
  have hsplit : N + 1 - s = (c + 1 - s) + ((N - 1 - c) + 1) := by omega
  rw [hsplit, countWorkingFrom_add]
  have hzero : countWorkingFrom wd (s + (c + 1 - s)) (N - 1 - c) = 0 := by
    apply countWorkingFrom_zero_of_none
    intro x h1 h2
    exact hmin x (by omega) (by omega)
  have hone : countWorkingFrom wd (s + (c + 1 - s)) ((N - 1 - c) + 1) =
      countWorkingFrom wd (s + (c + 1 - s)) (N - 1 - c) +
        countWorkingFrom wd (s + (c + 1 - s) + (N - 1 - c)) 1 := by
    exact countWorkingFrom_add wd (N - 1 - c) 1 _
  rw [hone, hzero]
  have hNx : s + (c + 1 - s) + (N - 1 - c) = N := by omega
  rw [hNx]
  simp [countWorkingFrom, hmem]

/-- Counting over the add-working-days loop. -/
theorem workingDaysBetween_addGo {wd : List Nat} (h : hasWeekday wd) (s : Nat) :
    ∀ n c, s ≤ c →
      workingDaysBetween s (addGo wd n c) wd = workingDaysBetween s c wd + n := by
  intro n
  induction n with
  | zero => intro c _; simp [addGo]
  | succ k ih =>
      intro c hc
      simp only [addGo]
      have h1 : s ≤ nextWorkingDay (c + 1) wd := by
        have := nextWorkingDay_ge (c + 1) wd; omega
      rw [ih _ h1, workingDaysBetween_step h hc]
      omega

/-- Counting over `_add_working_days`, from a working start day. -/
theorem workingDaysBetween_addWorkingDays {wd : List Nat} (h : hasWeekday wd)
    {s c : Nat} (hc : s ≤ c) (hcw : c % 7 ∈ wd) (days : Int) :
    workingDaysBetween s (addWorkingDays c days wd) wd =
      workingDaysBetween s c wd + days.toNat := by
  rw [addWorkingDays]
  split
  · have : days.toNat = 0 := by omega
    rw [this]
    omega
  · rw [nextWorkingDay_id hcw] at *
    exact workingDaysBetween_addGo h s days.toNat c hc

/-- Strict monotonicity of the count at a working end day. -/
theorem workingDaysBetween_lt {wd : List Nat} {s a b : Nat}
    (hab : a < b) (hsb : s ≤ b) (hb : b % 7 ∈ wd) :
    workingDaysBetween s a wd < workingDaysBetween s b wd := by
  rw [workingDaysBetween, workingDaysBetween]
  have hbs : ¬ b < s := by omega
  rw [if_neg hbs]
  by_cases hsa : a < s
  · rw [if_pos hsa]
    have hsplit : b + 1 - s = (b - s) + 1 := by omega
    rw [hsplit, countWorkingFrom_add]
    have : s + (b - s) = b := by omega
    rw [this]
    simp [countWorkingFrom, hb]
  · rw [if_neg hsa]
    have hsplit : b + 1 - s = (a + 1 - s) + ((b - a - 1) + 1) := by omega
    rw [hsplit, countWorkingFrom_add, countWorkingFrom_add]
    have : s + (a + 1 - s) + (b - a - 1) = b := by omega
    rw [this]
    simp [countWorkingFrom, hb]


-- ---------------------------------------------------------------------------
-- Data model (schemas.py) and sorting
-- ---------------------------------------------------------------------------

/-- `Zone` of `schemas.py`. -/
structure Zone where
  id : String
  name : String
  sequence : Int
deriving DecidableEq

/-- `Wagon` of `schemas.py` (none of its fields carries a pydantic bound). -/
structure Wagon where
  id : String
  name : String
  sequence : Int
  duration_days : Int
  crew_size : Int
  cost_per_day : ℚ
deriving DecidableEq

/-- Stable insertion used by `sortByKey`: insert before the first element of
greater-or-equal key, so equal keys keep their original relative order. -/
def insertByKey {α : Type} (key : α → Int) (a : α) : List α → List α
  | [] => [a]
  | b :: bs => if key a ≤ key b then a :: b :: bs else b :: insertByKey key a bs

/-- Python's stable `sorted(xs, key=...)`: a stable sort is uniquely determined
by the key, so any stable sort models it. -/
def sortByKey {α : Type} (key : α → Int) : List α → List α
  | [] => []
  | x :: xs => insertByKey key x (sortByKey key xs)

theorem length_insertByKey {α : Type} (key : α → Int) (a : α) :
    ∀ l : List α, (insertByKey key a l).length = l.length + 1 := by
  intro l
  induction l with
  | nil => rfl
  | cons b bs ih => simp only [insertByKey]; split <;> simp [ih]

theorem length_sortByKey {α : Type} (key : α → Int) :
    ∀ l : List α, (sortByKey key l).length = l.length := by
  intro l
  induction l with
  | nil => rfl
  | cons x xs ih => simp [sortByKey, length_insertByKey, ih]

theorem mem_insertByKey {α : Type} (key : α → Int) (a x : α) :
    ∀ l : List α, x ∈ insertByKey key a l ↔ x = a ∨ x ∈ l := by
  intro l
  induction l with
  | nil => simp [insertByKey]
  | cons b bs ih =>
      simp only [insertByKey]
      split
      · simp [List.mem_cons]
      · simp only [List.mem_cons, ih]
        tauto

theorem mem_sortByKey {α : Type} (key : α → Int) (x : α) :
    ∀ l : List α, x ∈ sortByKey key l ↔ x ∈ l := by
  intro l
  induction l with
  | nil => simp [sortByKey]
  | cons b bs ih => simp [sortByKey, mem_insertByKey, ih]

/-- Building a Python `dict` entry: replace the value if the key is present,
otherwise append (`zone_delays[zid] = ...`). -/
def dictUpdate : List (String × Int) → String → Int → List (String × Int)
  | [], k, v => [(k, v)]
  | (k', v') :: rest, k, v =>
      if k' = k then (k, v) :: rest else (k', v') :: dictUpdate rest k v

/-- Python `dict.get(k, dflt)` on an association list with unique keys. -/
def dictLookup (m : List (String × Int)) (k : String) (dflt : Int) : Int :=
  match m.find? (fun p => p.1 == k) with
  | some p => p.2
  | none => dflt

-- ---------------------------------------------------------------------------
-- `TaktSimulator._recalculate_grid`
-- ---------------------------------------------------------------------------

/-- `_Assignment` of `simulator.py`. -/
structure Assignment where
  wagon_id : String
  wagon_name : String
  zone_id : String
  zone_name : String
  period : Nat
  start_date : Nat
  end_date : Nat
  duration_days : Int
deriving DecidableEq

/-- The inputs of one `_recalculate_grid` run once zones and wagons are sorted:
`dur w` is wagon `w`'s `duration_days` and `delay z` is
`zone_delays.get(zone.id, 0)` of zone `z` (indices in processing order). -/
structure GridEnv where
  start : Nat
  wd : List Nat
  buffer : Int
  dur : Nat → Int
  delay : Nat → Int

/-- Finish dates of one wagon row, given the previous wagon's row of finish
dates (`none` for the first wagon).  Mirrors the per-cell body of the
`_recalculate_grid` loops: constraint (a) previous wagon in the same zone plus
`buffer_days + 1` working days, constraint (b) own previous zone plus one
working day, then the zone delay, the snap to a working day, and
`end = start + (duration - 1)` working days. -/
def cellEndAux (G : GridEnv) (dw : Int) (prev : Option (Nat → Nat)) : Nat → Nat
  | 0 =>
      let e1 := match prev with
        | none => G.start
        | some p => max G.start (addWorkingDays (p 0) (G.buffer + 1) G.wd)
      let e3 := if G.delay 0 > 0 then addWorkingDays e1 (G.delay 0) G.wd else e1
      addWorkingDays (nextWorkingDay e3 G.wd) (dw - 1) G.wd
  | z + 1 =>
      let e1 := match prev with
        | none => G.start
        | some p => max G.start (addWorkingDays (p (z + 1)) (G.buffer + 1) G.wd)
      let e2 := max e1 (addWorkingDays (cellEndAux G dw prev z) 1 G.wd)
      let e3 := if G.delay (z + 1) > 0 then addWorkingDays e2 (G.delay (z + 1)) G.wd else e2
      addWorkingDays (nextWorkingDay e3 G.wd) (dw - 1) G.wd

/-- `finish_date[w][z]` of `_recalculate_grid`. -/
def finishD (G : GridEnv) : Nat → Nat → Nat
  | 0 => cellEndAux G (G.dur 0) none
  | w + 1 => cellEndAux G (G.dur (w + 1)) (some (finishD G w))

/-- The `earliest` value of cell `(w, z)` just before the
`_next_working_day` snap. -/
def cellPreStart (G : GridEnv) (w z : Nat) : Nat :=
  let e1 := match w with
    | 0 => G.start
    | w' + 1 => max G.start (addWorkingDays (finishD G w' z) (G.buffer + 1) G.wd)
  let e2 := match z with
    | 0 => e1
    | z' + 1 => max e1 (addWorkingDays (finishD G w z') 1 G.wd)
  if G.delay z > 0 then addWorkingDays e2 (G.delay z) G.wd else e2

/-- The start date recorded for cell `(w, z)`. -/
def cellStartD (G : GridEnv) (w z : Nat) : Nat :=
  nextWorkingDay (cellPreStart G w z) G.wd

theorem finishD_eq (G : GridEnv) (w z : Nat) :
    finishD G w z = addWorkingDays (cellStartD G w z) (G.dur w - 1) G.wd := by
  cases w <;> cases z <;>
    simp [finishD, cellEndAux, cellStartD, cellPreStart]

/-- `GridEnv` of a `_recalculate_grid` call on sorted zone and wagon lists. -/
def gridEnvOf (sz : List Zone) (sw : List Wagon) (start : Nat) (wd : List Nat)
    (buffer : Int) (zone_delays : List (String × Int)) : GridEnv :=
  { start := start, wd := wd, buffer := buffer,
    dur := fun i => ((sw[i]?).map Wagon.duration_days).getD 0,
    delay := fun i => ((sz[i]?).map (fun z => dictLookup zone_delays z.id 0)).getD 0 }

/-- The assignment object appended for cell `(wi, zi)`; `period` is the
running `period_counter`, which equals `wi * n_zones + zi`. -/
def mkAssignment (G : GridEnv) (sz : List Zone) (sw : List Wagon)
    (wi zi : Nat) : Assignment :=
  { wagon_id := ((sw[wi]?).map Wagon.id).getD ""
    wagon_name := ((sw[wi]?).map Wagon.name).getD ""
    zone_id := ((sz[zi]?).map Zone.id).getD ""
    zone_name := ((sz[zi]?).map Zone.name).getD ""
    period := wi * sz.length + zi
    start_date := cellStartD G wi zi
    end_date := finishD G wi zi
    duration_days := G.dur wi }

/-- `TaktSimulator._recalculate_grid`: sort zones and wagons by sequence,
return `[]` when either list is empty, otherwise emit one assignment per
`(wagon, zone)` cell in wagon-major order. -/
def recalculateGrid (zones : List Zone) (wagons : List Wagon) (_takt_time : Int)
    (start : Nat) (wd : List Nat) (buffer : Int)
    (zone_delays : List (String × Int)) : List Assignment :=
  let sorted_zones := sortByKey Zone.sequence zones
  let sorted_wagons := sortByKey Wagon.sequence wagons
  if sorted_zones.isEmpty || sorted_wagons.isEmpty then []
  else
    let G := gridEnvOf sorted_zones sorted_wagons start wd buffer zone_delays
    (List.range sorted_wagons.length).flatMap fun wi =>
      (List.range sorted_zones.length).map fun zi =>
        mkAssignment G sorted_zones sorted_wagons wi zi

/-- Every grid element is `mkAssignment` at in-range indices, and conversely. -/
theorem mem_recalculateGrid {zones : List Zone} {wagons : List Wagon}
    {takt : Int} {start : Nat} {wd : List Nat} {buffer : Int}
    {zone_delays : List (String × Int)} {a : Assignment} :
    a ∈ recalculateGrid zones wagons takt start wd buffer zone_delays ↔
      ∃ wi zi, wi < wagons.length ∧ zi < zones.length ∧
        a = mkAssignment
          (gridEnvOf (sortByKey Zone.sequence zones) (sortByKey Wagon.sequence wagons)
            start wd buffer zone_delays)
          (sortByKey Zone.sequence zones) (sortByKey Wagon.sequence wagons) wi zi := by
  rw [recalculateGrid]
  split
  · constructor
    · intro h; simp at h
    · rintro ⟨wi, zi, hwi, hzi, rfl⟩
      rename_i hempty
      exfalso
      have h1 := length_sortByKey Zone.sequence zones
      have h2 := length_sortByKey Wagon.sequence wagons
      rcases Bool.or_eq_true_iff.mp hempty with h | h <;>
        rw [List.isEmpty_iff_length_eq_zero] at h <;> omega
  · constructor
    · intro h
      simp only [List.mem_flatMap, List.mem_map, List.mem_range] at h
      obtain ⟨wi, hwi, zi, hzi, rfl⟩ := h
      exact ⟨wi, zi, by rwa [length_sortByKey] at hwi, by rwa [length_sortByKey] at hzi, rfl⟩
    · rintro ⟨wi, zi, hwi, hzi, rfl⟩
      simp only [List.mem_flatMap, List.mem_map, List.mem_range]
      exact ⟨wi, by rwa [← length_sortByKey Wagon.sequence wagons] at hwi,
             zi, by rwa [← length_sortByKey Zone.sequence zones] at hzi, rfl⟩

-- ---------------------------------------------------------------------------
-- Ordering facts about the grid recurrence
-- ---------------------------------------------------------------------------

theorem cellPreStart_le_cellStartD (G : GridEnv) (w z : Nat) :
    cellPreStart G w z ≤ cellStartD G w z :=
  nextWorkingDay_ge _ _

theorem start_le_cellPreStart (G : GridEnv) (w z : Nat) :
    G.start ≤ cellPreStart G w z := by
  cases w <;> cases z <;>
    · simp only [cellPreStart]
      split
      · refine le_trans ?_ (addWorkingDays_ge _ _ _)
        first
          | exact le_refl _
          | exact le_max_left _ _
          | exact le_trans (le_max_left _ _) (le_max_left _ _)
      · first
          | exact le_refl _
          | exact le_max_left _ _
          | exact le_trans (le_max_left _ _) (le_max_left _ _)

theorem prevWagon_le_cellPreStart (G : GridEnv) (w z : Nat) :
    addWorkingDays (finishD G w z) (G.buffer + 1) G.wd ≤ cellPreStart G (w + 1) z := by
  cases z <;>
    · simp only [cellPreStart]
      split
      · refine le_trans ?_ (addWorkingDays_ge _ _ _)
        first
          | exact le_max_right _ _
          | exact le_trans (le_max_right _ _) (le_max_left _ _)
      · first
          | exact le_max_right _ _
          | exact le_trans (le_max_right _ _) (le_max_left _ _)

theorem prevZone_le_cellPreStart (G : GridEnv) (w z : Nat) :
    addWorkingDays (finishD G w z) 1 G.wd ≤ cellPreStart G w (z + 1) := by
  cases w <;>
    · simp only [cellPreStart]
      split
      · exact le_trans (le_max_right _ _) (addWorkingDays_ge _ _ _)
      · exact le_max_right _ _

theorem cellStartD_le_finishD (G : GridEnv) (w z : Nat) :
    cellStartD G w z ≤ finishD G w z := by
  rw [finishD_eq]
  exact addWorkingDays_ge _ _ _

/-- Constraint (a) as recorded in the output: in the same zone the next wagon
starts no earlier than the previous wagon's end advanced by
`buffer_days + 1` working days. -/
theorem prevWagon_le_cellStartD (G : GridEnv) (w z : Nat) :
    addWorkingDays (finishD G w z) (G.buffer + 1) G.wd ≤ cellStartD G (w + 1) z :=
  le_trans (prevWagon_le_cellPreStart G w z) (cellPreStart_le_cellStartD G (w + 1) z)

/-- Constraint (b) as recorded in the output: in the same wagon the next zone
starts no earlier than the previous zone's end advanced by one working day. -/
theorem prevZone_le_cellStartD (G : GridEnv) (w z : Nat) :
    addWorkingDays (finishD G w z) 1 G.wd ≤ cellStartD G w (z + 1) :=
  le_trans (prevZone_le_cellPreStart G w z) (cellPreStart_le_cellStartD G w (z + 1))

theorem finishD_lt_next_zone (G : GridEnv) (w z : Nat) :
    finishD G w z < cellStartD G w (z + 1) := by
  have h1 := prevZone_le_cellStartD G w z
  have h2 := addWorkingDays_pos_gt (finishD G w z) (by omega : (1:Int) ≥ 1) G.wd
  omega

theorem finishD_mono_zone (G : GridEnv) (w z : Nat) :
    finishD G w z ≤ finishD G w (z + 1) := by
  have h1 := finishD_lt_next_zone G w z
  have h2 := cellStartD_le_finishD G w (z + 1)
  omega

theorem finishD_mono_wagon (G : GridEnv) (w z : Nat) :
    finishD G w z ≤ finishD G (w + 1) z := by
  have h1 := addWorkingDays_ge (finishD G w z) (G.buffer + 1) G.wd
  have h2 := prevWagon_le_cellStartD G w z
  have h3 := cellStartD_le_finishD G (w + 1) z
  omega

theorem start_le_finishD (G : GridEnv) (w z : Nat) :
    G.start ≤ finishD G w z := by
  have h1 := start_le_cellPreStart G w z
  have h2 := cellPreStart_le_cellStartD G w z
  have h3 := cellStartD_le_finishD G w z
  omega

theorem cellStartD_mem {G : GridEnv} (h : hasWeekday G.wd) (w z : Nat) :
    cellStartD G w z % 7 ∈ G.wd :=
  nextWorkingDay_mem h _

theorem finishD_mem {G : GridEnv} (h : hasWeekday G.wd) (w z : Nat) :
    finishD G w z % 7 ∈ G.wd := by
  rw [finishD_eq]
  rw [addWorkingDays]
  split
  · exact cellStartD_mem h w z
  · exact addGo_mem G.wd h _ _ (nextWorkingDay_mem h _)

-- ---------------------------------------------------------------------------
-- Monte Carlo per-iteration recurrence (simulate_monte_carlo inner loops)
-- ---------------------------------------------------------------------------

/-- One row of the Monte Carlo finish matrix:
`finish[w][z] = max(prev_zone, prev_wagon + buffer) + dur[w][z]` where
`prev_zone = finish[w][z-1]` (0 for `z = 0`) and
`prev_wagon = finish[w-1][z]` (whose row is `prev`, `none` for `w = 0`;
the missing term contributes 0). -/
def mcRowAux (buffer : Int) (dw : Nat → Int) (prev : Option (Nat → Int)) : Nat → Int
  | 0 =>
      max 0 (match prev with
        | none => 0
        | some p => p 0 + buffer) + dw 0
  | z + 1 =>
      max (mcRowAux buffer dw prev z) (match prev with
        | none => 0
        | some p => p (z + 1) + buffer) + dw (z + 1)

/-- `finish[w][z]` of the Monte Carlo iteration loop. -/
def mcFinish (buffer : Int) (d : Nat → Nat → Int) : Nat → Nat → Int
  | 0 => mcRowAux buffer (d 0) none
  | w + 1 => mcRowAux buffer (d (w + 1)) (some (mcFinish buffer d w))

theorem mcFinish_zero_zero (buffer : Int) (d : Nat → Nat → Int) :
    mcFinish buffer d 0 0 = d 0 0 := by
  simp [mcFinish, mcRowAux]

/-- The Monte Carlo recurrence, written cell-wise. -/
theorem mcFinish_succ_succ (buffer : Int) (d : Nat → Nat → Int) (w z : Nat) :
    mcFinish buffer d (w + 1) (z + 1) =
      max (mcFinish buffer d (w + 1) z) (mcFinish buffer d w (z + 1) + buffer) +
        d (w + 1) (z + 1) := by
  simp [mcFinish, mcRowAux]

theorem mcFinish_pos (buffer : Int) (d : Nat → Nat → Int) :
    ∀ w, (∀ w' z', w' ≤ w → 1 ≤ d w' z') → ∀ z, 1 ≤ mcFinish buffer d w z := by
  intro w
  induction w with
  | zero =>
      intro hd z
      induction z with
      | zero => have := hd 0 0 (le_refl 0); simp [mcFinish, mcRowAux]; omega
      | succ z' ihz =>
          have := hd 0 (z' + 1) (le_refl 0)
          simp only [mcFinish, mcRowAux] at *
          omega
  | succ w' ihw =>
      intro hd z
      have ihw' := ihw (fun a b hab => hd a b (by omega))
      induction z with
      | zero =>
          have := hd (w' + 1) 0 (le_refl _)
          have := ihw' 0
          simp only [mcFinish, mcRowAux] at *
          omega
      | succ z' ihz =>
          have := hd (w' + 1) (z' + 1) (le_refl _)
          have := ihw' (z' + 1)
          simp only [mcFinish, mcRowAux] at *
          omega

/-- `max` distributes over the inclusive working-day count. -/
theorem workingDaysBetween_max (wd : List Nat) (s a b : Nat) :
    workingDaysBetween s (max a b) wd =
      max (workingDaysBetween s a wd) (workingDaysBetween s b wd) := by
  rcases le_total a b with h | h
  · rw [max_eq_right h, max_eq_right (workingDaysBetween_mono wd s h)]
  · rw [max_eq_left h, max_eq_left (workingDaysBetween_mono wd s h)]

theorem max_mem_wd {wd : List Nat} {a b : Nat} (ha : a % 7 ∈ wd) (hb : b % 7 ∈ wd) :
    max a b % 7 ∈ wd := by
  rcases max_choice a b with h | h <;> rw [h] <;> assumption

/-- `cellPreStart` at the origin cell with no zone delay. -/
theorem cellPreStart_zero_zero (G : GridEnv) (hdel : G.delay 0 = 0) :
    cellPreStart G 0 0 = G.start := by
  simp only [cellPreStart]
  rw [if_neg (by omega)]

theorem cellPreStart_succ_zero (G : GridEnv) (w : Nat) (hdel : G.delay 0 = 0) :
    cellPreStart G (w + 1) 0 =
      max G.start (addWorkingDays (finishD G w 0) (G.buffer + 1) G.wd) := by
  simp only [cellPreStart]
  rw [if_neg (by omega)]

theorem cellPreStart_zero_succ (G : GridEnv) (z : Nat) (hdel : G.delay (z + 1) = 0) :
    cellPreStart G 0 (z + 1) =
      max G.start (addWorkingDays (finishD G 0 z) 1 G.wd) := by
  simp only [cellPreStart]
  rw [if_neg (by omega)]

theorem cellPreStart_succ_succ (G : GridEnv) (w z : Nat) (hdel : G.delay (z + 1) = 0) :
    cellPreStart G (w + 1) (z + 1) =
      max (max G.start (addWorkingDays (finishD G w (z + 1)) (G.buffer + 1) G.wd))
        (addWorkingDays (finishD G (w + 1) z) 1 G.wd) := by
  simp only [cellPreStart]
  rw [if_neg (by omega)]

/-- Core refinement: with no zone delays, a working start day, a nonnegative
buffer and positive per-wagon durations, the calendar grid's finish dates and
the Monte Carlo pure-count recurrence agree through the inclusive working-day
count from the start date. -/
theorem workingDaysBetween_finishD (G : GridEnv) (h : hasWeekday G.wd)
    (hs : G.start % 7 ∈ G.wd) (hb : 0 ≤ G.buffer)
    (hdel : ∀ z, G.delay z = 0) :
    ∀ w z, (∀ w', w' ≤ w → 1 ≤ G.dur w') →
      (workingDaysBetween G.start (finishD G w z) G.wd : Int) =
        mcFinish G.buffer (fun w _ => G.dur w) w z := by
  -- working-day count of a finish date, from the count of its cell start
  have hfin : ∀ w z, workingDaysBetween G.start (finishD G w z) G.wd =
      workingDaysBetween G.start (cellStartD G w z) G.wd + (G.dur w - 1).toNat := by
    intro w z
    rw [finishD_eq]
    exact workingDaysBetween_addWorkingDays h
      (le_trans (start_le_cellPreStart G w z) (cellPreStart_le_cellStartD G w z))
      (cellStartD_mem h w z) _
  -- count of the candidate `previous finish advanced by k working days`
  have hadv : ∀ w z (k : Int), 1 ≤ k →
      workingDaysBetween G.start (addWorkingDays (finishD G w z) k G.wd) G.wd =
        workingDaysBetween G.start (finishD G w z) G.wd + k.toNat := fun w z k _ =>
    workingDaysBetween_addWorkingDays h (start_le_finishD G w z) (finishD_mem h w z) k
  have hself : workingDaysBetween G.start G.start G.wd = 1 :=
    workingDaysBetween_self hs
  intro w
  induction w with
  | zero =>
      intro z hdur
      have hmcpos := mcFinish_pos G.buffer (fun w _ => G.dur w) 0
        (fun a b hab => hdur a (by omega))
      induction z with
      | zero =>
          have hcs : cellStartD G 0 0 = G.start := by
            rw [cellStartD, cellPreStart_zero_zero G (hdel 0), nextWorkingDay_id hs]
          rw [hfin, hcs, hself, mcFinish_zero_zero]
          have := hdur 0 (le_refl 0)
          omega
      | succ z' ihz =>
          have hwrk : (max G.start (addWorkingDays (finishD G 0 z') 1 G.wd)) % 7 ∈ G.wd :=
            max_mem_wd hs (addWorkingDays_mem h _ (by omega))
          have hcs : cellStartD G 0 (z' + 1) =
              max G.start (addWorkingDays (finishD G 0 z') 1 G.wd) := by
            rw [cellStartD, cellPreStart_zero_succ G z' (hdel _), nextWorkingDay_id hwrk]
          rw [hfin, hcs, workingDaysBetween_max, hself, hadv 0 z' 1 (by omega)]
          have hm : mcFinish G.buffer (fun w _ => G.dur w) 0 (z' + 1) =
              max (mcFinish G.buffer (fun w _ => G.dur w) 0 z') 0 + G.dur 0 := by
            simp [mcFinish, mcRowAux]
          have h1 := hmcpos z'
          have h2 := hdur 0 (le_refl 0)
          omega
  | succ w' ihw =>
      intro z hdur
      have hdurw : ∀ a, a ≤ w' → 1 ≤ G.dur a := fun a ha => hdur a (by omega)
      have hup0 := fun z => ihw z hdurw
      have hmcpos := mcFinish_pos G.buffer (fun w _ => G.dur w) (w' + 1)
        (fun a b hab => hdur a hab)
      have hmcposw := mcFinish_pos G.buffer (fun w _ => G.dur w) w'
        (fun a b hab => hdurw a hab)
      induction z with
      | zero =>
          have hwrk : (max G.start (addWorkingDays (finishD G w' 0) (G.buffer + 1) G.wd)) % 7
              ∈ G.wd := max_mem_wd hs (addWorkingDays_mem h _ (by omega))
          have hcs : cellStartD G (w' + 1) 0 =
              max G.start (addWorkingDays (finishD G w' 0) (G.buffer + 1) G.wd) := by
            rw [cellStartD, cellPreStart_succ_zero G w' (hdel 0), nextWorkingDay_id hwrk]
          rw [hfin, hcs, workingDaysBetween_max, hself, hadv w' 0 (G.buffer + 1) (by omega)]
          have hup := hup0 0
          have hm : mcFinish G.buffer (fun w _ => G.dur w) (w' + 1) 0 =
              max 0 (mcFinish G.buffer (fun w _ => G.dur w) w' 0 + G.buffer) +
                G.dur (w' + 1) := by
            simp [mcFinish, mcRowAux]
          have h1 := hmcposw 0
          have h2 := hdur (w' + 1) (le_refl _)
          omega
      | succ z' ihz =>
          have hwrk : (max (max G.start
                (addWorkingDays (finishD G w' (z' + 1)) (G.buffer + 1) G.wd))
                (addWorkingDays (finishD G (w' + 1) z') 1 G.wd)) % 7 ∈ G.wd :=
            max_mem_wd (max_mem_wd hs (addWorkingDays_mem h _ (by omega)))
              (addWorkingDays_mem h _ (by omega))
          have hcs : cellStartD G (w' + 1) (z' + 1) =
              max (max G.start (addWorkingDays (finishD G w' (z' + 1)) (G.buffer + 1) G.wd))
                (addWorkingDays (finishD G (w' + 1) z') 1 G.wd) := by
            rw [cellStartD, cellPreStart_succ_succ G w' z' (hdel _), nextWorkingDay_id hwrk]
          rw [hfin, hcs, workingDaysBetween_max, workingDaysBetween_max, hself,
            hadv w' (z' + 1) (G.buffer + 1) (by omega), hadv (w' + 1) z' 1 (by omega)]
          have hup := hup0 (z' + 1)
          have hm := mcFinish_succ_succ G.buffer (fun w _ => G.dur w) w' z'
          have h1 := hmcposw (z' + 1)
          have h2 := hmcpos z'
          have h3 := hdur (w' + 1) (le_refl _)
          omega

-- ---------------------------------------------------------------------------
-- `_grid_end_date` and the position of the grid's latest end date
-- ---------------------------------------------------------------------------

/-- `TaktSimulator._grid_end_date`: latest end date of the assignment list,
`date.today()` (the `today` parameter) when the list is empty. -/
def gridEndDate (today : Nat) : List Assignment → Nat
  | [] => today
  | a :: rest => rest.foldl (fun m b => max m b.end_date) a.end_date

theorem foldl_max_le_of {rest : List Assignment} {M : Nat} :
    ∀ {init : Nat}, init ≤ M → (∀ b ∈ rest, b.end_date ≤ M) →
      rest.foldl (fun m b => max m b.end_date) init ≤ M := by
  induction rest with
  | nil => intro init h _; simpa using h
  | cons b bs ih =>
      intro init h hall
      simp only [List.foldl_cons]
      exact ih (max_le h (hall b (List.mem_cons_self b bs)))
        (fun x hx => hall x (List.mem_cons_of_mem b hx))

theorem le_foldl_max_init {rest : List Assignment} :
    ∀ {init : Nat}, init ≤ rest.foldl (fun m b => max m b.end_date) init := by
  induction rest with
  | nil => intro init; simp
  | cons b bs ih =>
      intro init
      simp only [List.foldl_cons]
      exact le_trans (le_max_left _ _) ih

theorem le_foldl_max_mem {rest : List Assignment} {x : Assignment} (hx : x ∈ rest) :
    ∀ {init : Nat}, x.end_date ≤ rest.foldl (fun m b => max m b.end_date) init := by
  induction rest with
  | nil => cases hx
  | cons b bs ih =>
      intro init
      rcases List.mem_cons.mp hx with rfl | hmem
      · simp only [List.foldl_cons]
        exact le_trans (le_max_right _ _) le_foldl_max_init
      · simp only [List.foldl_cons]
        exact ih hmem

theorem finishD_mono_wagon_le (G : GridEnv) {w w' : Nat} (h : w ≤ w') (z : Nat) :
    finishD G w z ≤ finishD G w' z := by
  induction h with
  | refl => exact le_refl _
  | step h ih => exact le_trans ih (finishD_mono_wagon G _ z)

theorem finishD_mono_zone_le (G : GridEnv) (w : Nat) {z z' : Nat} (h : z ≤ z') :
    finishD G w z ≤ finishD G w z' := by
  induction h with
  | refl => exact le_refl _
  | step h ih => exact le_trans ih (finishD_mono_zone G w _)

/-- On a nonempty grid the latest end date is the end date of the last cell
(last wagon, last zone). -/
theorem gridEndDate_recalculateGrid {zones : List Zone} {wagons : List Wagon}
    {takt : Int} {start : Nat} {wd : List Nat} {buffer : Int}
    {zone_delays : List (String × Int)} {today : Nat}
    (hz : zones ≠ []) (hw : wagons ≠ []) :
    gridEndDate today (recalculateGrid zones wagons takt start wd buffer zone_delays) =
      finishD
        (gridEnvOf (sortByKey Zone.sequence zones) (sortByKey Wagon.sequence wagons)
          start wd buffer zone_delays)
        (wagons.length - 1) (zones.length - 1) := by
  set G := gridEnvOf (sortByKey Zone.sequence zones) (sortByKey Wagon.sequence wagons)
      start wd buffer zone_delays with hG
  have hzl : 0 < zones.length := List.length_pos.mpr hz
  have hwl : 0 < wagons.length := List.length_pos.mpr hw
  have hlast : mkAssignment G (sortByKey Zone.sequence zones)
      (sortByKey Wagon.sequence wagons) (wagons.length - 1) (zones.length - 1) ∈
      recalculateGrid zones wagons takt start wd buffer zone_delays :=
    mem_recalculateGrid.mpr ⟨wagons.length - 1, zones.length - 1, by omega, by omega, rfl⟩
  have hbound : ∀ b ∈ recalculateGrid zones wagons takt start wd buffer zone_delays,
      b.end_date ≤ finishD G (wagons.length - 1) (zones.length - 1) := by
    intro b hb
    obtain ⟨wi, zi, hwi, hzi, rfl⟩ := mem_recalculateGrid.mp hb
    show finishD G wi zi ≤ _
    exact le_trans (finishD_mono_wagon_le G (by omega) zi)
      (finishD_mono_zone_le G _ (by omega))
  cases hgrid : recalculateGrid zones wagons takt start wd buffer zone_delays with
  | nil => rw [hgrid] at hlast; cases hlast
  | cons a rest =>
      rw [hgrid] at hlast hbound
      have hM : a.end_date ≤ finishD G (wagons.length - 1) (zones.length - 1) :=
        hbound a (List.mem_cons_self a rest)
      apply le_antisymm
      · exact foldl_max_le_of hM (fun b hb => hbound b (List.mem_cons_of_mem a hb))
      · rcases List.mem_cons.mp hlast with heq | hmem
        · rw [gridEndDate, ← heq]
          exact le_foldl_max_init
        · rw [gridEndDate]
          exact le_foldl_max_mem hmem

-- ---------------------------------------------------------------------------
-- Termination of the date loops (fuelled embeddings)
-- ---------------------------------------------------------------------------

theorem nextWorkingDay_step {wd : List Nat} (h : hasWeekday wd) {d : Nat}
    (hd : d % 7 ∉ wd) : nextWorkingDay d wd = nextWorkingDay (d + 1) wd := by
  have h1 := nextWorkingDay_ge d wd
  have h1' := nextWorkingDay_ge (d + 1) wd
  have hm := nextWorkingDay_mem h d
  have hm' := nextWorkingDay_mem h (d + 1)
  have hmin := nextWorkingDay_min h d
  have hmin' := nextWorkingDay_min h (d + 1)
  have hne : nextWorkingDay d wd ≠ d := fun he => hd (he ▸ hm)
  apply le_antisymm
  · by_contra hlt
    exact hmin (nextWorkingDay (d + 1) wd) (by omega) (by omega) hm'
  · by_contra hlt
    exact hmin' (nextWorkingDay d wd) (by omega) (by omega) hm

/-- With enough fuel (7 per working day still to add), the inner loop of
`_add_working_days` terminates and computes `addGo`. -/
theorem addWDLoopFuel_eq {wd : List Nat} (h : hasWeekday wd) :
    ∀ fuel i rem c, (c + 1 + i) % 7 ∈ wd → 7 * rem + i + 1 ≤ fuel →
      addWDLoopFuel wd fuel c (rem + 1) = some (addGo wd (rem + 1) c) := by
  intro fuel
  induction fuel with
  | zero => intro i rem c _ hle; omega
  | succ f ih =>
      intro i rem c hi hle
      by_cases hc : (c + 1) % 7 ∈ wd
      · rw [addWDLoopFuel, if_pos hc]
        have hgo : addGo wd (rem + 1) c = addGo wd rem (c + 1) := by
          rw [addGo, nextWorkingDay_id hc]
        cases rem with
        | zero => rw [hgo]; simp [addWDLoopFuel, addGo]
        | succ r =>
            obtain ⟨i', hi7, hi'⟩ := exists_hit_within_seven h (c + 2)
            rw [hgo]
            exact ih i' r (c + 1) (by have : c + 1 + 1 + i' = c + 2 + i' := by omega
                                      rw [this]; exact hi') (by omega)
      · have hi0 : i ≠ 0 := by
          rintro rfl
          simp at hi
          exact hc hi
        rw [addWDLoopFuel, if_neg hc]
        have hgo : addGo wd (rem + 1) c = addGo wd (rem + 1) (c + 1) := by
          rw [addGo, addGo, nextWorkingDay_step h hc]
        rw [hgo]
        exact ih (i - 1) rem (c + 1)
          (by have : c + 1 + 1 + (i - 1) = c + 1 + i := by omega
              rw [this]; exact hi) (by omega)

/-- The fuelled embedding of `_add_working_days` succeeds with `7 * days` fuel
for the inner loop and agrees with the total function. -/
theorem addWorkingDaysFuel_eq {wd : List Nat} (h : hasWeekday wd)
    (start : Nat) (days : Int) :
    addWorkingDaysFuel wd start days = some (addWorkingDays start days wd) := by
  rw [addWorkingDaysFuel, addWorkingDays]
  split
  · rfl
  · rename_i hpos
    rw [nextWorkingDayFuel_seven h start]
    have hd : 1 ≤ days.toNat := by omega
    obtain ⟨rem, hrem⟩ : ∃ r, days.toNat = r + 1 := ⟨days.toNat - 1, by omega⟩
    rw [hrem]
    obtain ⟨i, hi7, hi⟩ := exists_hit_within_seven h (nextWorkingDay start wd + 1)
    exact addWDLoopFuel_eq h (7 * (rem + 1)) i rem (nextWorkingDay start wd) hi (by omega)

/-- When no working-day entry is an actual weekday, the `_next_working_day`
loop never exits. -/
theorem nextWorkingDayFuel_none {wd : List Nat} (h : ∀ k ∈ wd, 7 ≤ k) :
    ∀ fuel d, nextWorkingDayFuel fuel d wd = none := by
  intro fuel
  induction fuel with
  | zero => intro d; rfl
  | succ f ih =>
      intro d
      have hd : d % 7 ∉ wd := fun hmem => by have := h _ hmem; omega
      rw [nextWorkingDayFuel, if_neg hd]
      exact ih (d + 1)

theorem addWorkingDaysFuel_none {wd : List Nat} (h : ∀ k ∈ wd, 7 ≤ k)
    (start : Nat) {days : Int} (hd : 1 ≤ days) :
    addWorkingDaysFuel wd start days = none := by
  rw [addWorkingDaysFuel, if_neg (by omega), nextWorkingDayFuel_none h]

-- ---------------------------------------------------------------------------
-- Rounding and generic helpers
-- ---------------------------------------------------------------------------

/-- Python's `round` on exact values: round half to even (banker's rounding). -/
def rhe (q : ℚ) : Int :=
  let f := ⌊q⌋
  let r := q - f
  if r < 1 / 2 then f else if 1 / 2 < r then f + 1 else if Even f then f else f + 1

/-- Python's `round(x, n)` for `n` decimal digits. -/
def roundTo (n : Nat) (q : ℚ) : ℚ :=
  (rhe (q * ((10 : ℚ) ^ n)) : ℚ) / ((10 : ℚ) ^ n)

/-- Keys of a list in first-occurrence order (insertion order of a Python
`defaultdict`). -/
def firstOccsAux (seen : List String) : List String → List String
  | [] => []
  | x :: xs => if x ∈ seen then firstOccsAux seen xs else x :: firstOccsAux (x :: seen) xs

def firstOccs (l : List String) : List String := firstOccsAux [] l

/-- `{w.id: f(w) for w in wagons}.get(wid, dflt)`: a dict comprehension keeps
the last binding of a repeated key, so look up the last matching wagon. -/
def wagonFieldLookup {α : Type} (ws : List Wagon) (wid : String) (f : Wagon → α)
    (dflt : α) : α :=
  ((ws.reverse.find? (fun w => w.id == wid)).map f).getD dflt

-- ---------------------------------------------------------------------------
-- Stacking detection (`_detect_stacking`)
-- ---------------------------------------------------------------------------

/-- `TradeStacking` of `schemas.py` (dates as day numbers). -/
structure TradeStacking where
  zone_id : String
  zone_name : String
  period : Nat
  trades : List String
  overlap_start : Nat
  overlap_end : Nat
deriving DecidableEq

/-- The conflict record for an ordered pair of same-zone assignments, when
their date ranges intersect (`start1 <= end2 and start2 <= end1`). -/
def stackPair (a b : Assignment) : Option TradeStacking :=
  if a.start_date ≤ b.end_date ∧ b.start_date ≤ a.end_date then
    some { zone_id := a.zone_id, zone_name := a.zone_name,
           period := min a.period b.period,
           trades := [a.wagon_name, b.wagon_name],
           overlap_start := max a.start_date b.start_date,
           overlap_end := min a.end_date b.end_date }
  else none

/-- All pairs `(i, j)`, `i < j`, of one zone's assignment group. -/
def pairStacking : List Assignment → List TradeStacking
  | [] => []
  | a :: rest => rest.filterMap (stackPair a) ++ pairStacking rest

/-- `TaktSimulator._detect_stacking`: group by zone id (insertion order),
flag every overlapping pair within a group. -/
def detectStacking (assignments : List Assignment) : List TradeStacking :=
  (firstOccs (assignments.map Assignment.zone_id)).flatMap fun zid =>
    pairStacking (assignments.filter (fun a => a.zone_id == zid))

-- ---------------------------------------------------------------------------
-- Change application (`_apply_change`)
-- ---------------------------------------------------------------------------

/-- `ChangeType` of `schemas.py`. -/
inductive ChangeType where
  | add_crew
  | change_takt_time
  | move_trade
  | add_buffer
  | delay_zone
  | remove_trade
  | split_zone
deriving DecidableEq

/-- The parameter dict of a `SimulationChange`, with the defaults
`_apply_change` supplies via `params.get(...)`.  `new_takt_time`'s default is
the current takt time, hence the `Option`. -/
structure ChangeParams where
  trade_id : String := ""
  additional_crew : Int := 1
  new_takt_time : Option Int := none
  new_sequence : Int := 0
  after_trade_id : String := ""
  buffer_days : Int := 1
  zone_id : String := ""
  delay_days : Int := 0
  split_into : List String := []
deriving DecidableEq

structure SimulationChange where
  type : ChangeType
  parameters : ChangeParams
deriving DecidableEq

/-- `ResourceImpact` of `schemas.py`. -/
structure ResourceImpact where
  trade_id : String
  trade_name : String
  original_crew : Int
  simulated_crew : Int
  delta_crew : Int
deriving DecidableEq

/-- The mutable plan components threaded through `_apply_change`. -/
structure PlanState where
  zones : List Zone
  wagons : List Wagon
  takt : Int
  buffer : Int
  zone_delays : List (String × Int)
  resource_impacts : List ResourceImpact
  warnings : List String
deriving DecidableEq

/-- `TaktSimulator._find_wagon`: first wagon with the given id. -/
def findWagon (ws : List Wagon) (wid : String) : Option Wagon :=
  ws.find? (fun w => w.id == wid)

/-- `TaktSimulator._find_zone`. -/
def findZone (zs : List Zone) (zid : String) : Option Zone :=
  zs.find? (fun z => z.id == zid)

/-- Mutate the first wagon with the given id (Python mutates the object
returned by `_find_wagon` in place). -/
def updateWagon (tid : String) (f : Wagon → Wagon) : List Wagon → List Wagon
  | [] => []
  | w :: rest => if w.id = tid then f w :: rest else w :: updateWagon tid f rest

/-- `TaktSimulator._apply_change`, one `SimulationChange` at a time. -/
def applyChange (change : SimulationChange) (st : PlanState) : PlanState :=
  let p := change.parameters
  match change.type with
  | ChangeType.add_crew =>
      match findWagon st.wagons p.trade_id with
      | none =>
          { st with warnings := st.warnings ++ ["add_crew: trade not found, skipping."] }
      | some wagon =>
          let original_crew := wagon.crew_size
          let new_crew := original_crew + p.additional_crew
          let ratio : ℚ := (original_crew : ℚ) / (new_crew : ℚ)
          let new_duration := max 1 (rhe ((wagon.duration_days : ℚ) * ratio))
          { st with
            resource_impacts := st.resource_impacts ++
              [{ trade_id := wagon.id, trade_name := wagon.name,
                 original_crew := original_crew, simulated_crew := new_crew,
                 delta_crew := p.additional_crew }]
            wagons := updateWagon p.trade_id
              (fun w => { w with crew_size := new_crew, duration_days := new_duration })
              st.wagons }
  | ChangeType.change_takt_time =>
      let nt0 := p.new_takt_time.getD st.takt
      let warn := nt0 < 1
      let nt := if nt0 < 1 then 1 else nt0
      let ratio : ℚ := if st.takt > 0 then (nt : ℚ) / (st.takt : ℚ) else 1
      { st with
        takt := nt
        wagons := st.wagons.map
          (fun w => { w with duration_days := max 1 (rhe ((w.duration_days : ℚ) * ratio)) })
        warnings := if warn then
            st.warnings ++ ["change_takt_time: value must be >= 1, using 1."]
          else st.warnings }
  | ChangeType.move_trade =>
      match findWagon st.wagons p.trade_id with
      | none =>
          { st with warnings := st.warnings ++ ["move_trade: trade not found, skipping."] }
      | some wagon =>
          let old_seq := wagon.sequence
          let new_seq := p.new_sequence
          let shifted := st.wagons.map fun w =>
            if w.id = p.trade_id then w
            else if old_seq < new_seq then
              (if old_seq < w.sequence ∧ w.sequence ≤ new_seq then
                { w with sequence := w.sequence - 1 } else w)
            else
              (if new_seq ≤ w.sequence ∧ w.sequence < old_seq then
                { w with sequence := w.sequence + 1 } else w)
          { st with wagons :=
              updateWagon p.trade_id (fun w => { w with sequence := new_seq }) shifted }
  | ChangeType.add_buffer =>
      let st' :=
        if p.after_trade_id ≠ "" ∧ findWagon st.wagons p.after_trade_id = none then
          { st with warnings := st.warnings ++
              ["add_buffer: trade not found, applying buffer globally."] }
        else st
      { st' with buffer := st'.buffer + p.buffer_days }
  | ChangeType.delay_zone =>
      match findZone st.zones p.zone_id with
      | none =>
          { st with warnings := st.warnings ++ ["delay_zone: zone not found, skipping."] }
      | some _ =>
          let newDelay := dictLookup st.zone_delays p.zone_id 0 + p.delay_days
          { st with zone_delays := dictUpdate st.zone_delays p.zone_id newDelay }
  | ChangeType.remove_trade =>
      match findWagon st.wagons p.trade_id with
      | none =>
          { st with warnings := st.warnings ++ ["remove_trade: trade not found, skipping."] }
      | some wagon =>
          let removed_seq := wagon.sequence
          let remaining := st.wagons.filter (fun w => ¬ w.id = p.trade_id)
          { st with wagons := remaining.map fun w =>
              if w.sequence > removed_seq then { w with sequence := w.sequence - 1 } else w }
  | ChangeType.split_zone =>
      match findZone st.zones p.zone_id with
      | none =>
          { st with warnings := st.warnings ++ ["split_zone: zone not found, skipping."] }
      | some zone =>
          if p.split_into.length < 2 then
            { st with warnings := st.warnings ++
                ["split_zone: split_into must have at least 2 names."] }
          else
            let original_seq := zone.sequence
            let n_new := p.split_into.length
            let kept := (st.zones.filter (fun z => ¬ z.id = p.zone_id)).map fun z =>
              if z.sequence > original_seq then
                { z with sequence := z.sequence + (n_new - 1) } else z
            let inserted := (List.range n_new).map fun i =>
              { id := p.zone_id ++ "_split_" ++ toString i
                name := p.split_into.getD i ""
                sequence := original_seq + i : Zone }
            { st with zones := sortByKey Zone.sequence (kept ++ inserted) }

-- ---------------------------------------------------------------------------
-- Flowline, cost, risk (`_compute_flowline`, `_total_cost`, `_compute_risk_score`)
-- ---------------------------------------------------------------------------

/-- One flowline segment (`{"zone", "zone_id", "start", "end", "duration_days"}`). -/
structure FlowlineSeg where
  zone : String
  zone_id : String
  seg_start : Nat
  seg_end : Nat
  duration_days : Int
deriving DecidableEq

/-- `TaktSimulator._compute_flowline`: the zone names sorted by sequence, and
the segments grouped per wagon name in insertion order. -/
def computeFlowline (assignments : List Assignment) (zones : List Zone) :
    List String × List (String × List FlowlineSeg) :=
  let zone_names := (sortByKey Zone.sequence zones).map Zone.name
  let trade_names := firstOccs (assignments.map Assignment.wagon_name)
  (zone_names,
   trade_names.map fun nm =>
     (nm, (assignments.filter (fun a => a.wagon_name == nm)).map fun a =>
       { zone := a.zone_name, zone_id := a.zone_id, seg_start := a.start_date,
         seg_end := a.end_date, duration_days := a.duration_days }))

/-- `TaktSimulator._total_cost`: `Σ duration_days * cost_per_day * crew_size`
with dict lookups defaulting to cost 0 and crew 1. -/
def totalCost (assignments : List Assignment) (wagons : List Wagon) : ℚ :=
  assignments.foldl
    (fun acc a => acc + (a.duration_days : ℚ) *
      wagonFieldLookup wagons a.wagon_id Wagon.cost_per_day 0 *
      wagonFieldLookup wagons a.wagon_id (fun w => ((w.crew_size : Int) : ℚ)) 1)
    0

/-- `TaktSimulator._compute_risk_score`. -/
def computeRiskScore (delta_days : Int) (stacking_count : Nat)
    (n_zones n_wagons : Nat) : ℚ :=
  let max_cells : Int := max ((n_zones : Int) * (n_wagons : Int)) 1
  let schedule_risk0 : ℚ := (delta_days : ℚ) / ((max max_cells 20 : Int) : ℚ)
  let schedule_risk : ℚ := max (-1) (min 1 schedule_risk0)
  let stacking_risk0 : ℚ := (stacking_count : ℚ) / (max_cells : ℚ)
  let stacking_risk : ℚ := min stacking_risk0 1
  let combined : ℚ := 6 / 10 * schedule_risk + 4 / 10 * stacking_risk
  max (-1) (min 1 combined)

-- ---------------------------------------------------------------------------
-- What-if simulation (`simulate_what_if`)
-- ---------------------------------------------------------------------------

/-- `BasePlan` of `schemas.py` (`start_date` already parsed to a day number). -/
structure BasePlan where
  zones : List Zone
  wagons : List Wagon
  takt_time : Int
  start_date : Nat
  working_days : List Nat
  buffer_days : Int
deriving DecidableEq

structure WhatIfRequest where
  plan_id : String
  base_plan : BasePlan
  changes : List SimulationChange
deriving DecidableEq

/-- `SimulationResult` of `schemas.py` (flowline dict split into its two
components; the response's ISO strings stay as day numbers). -/
structure SimulationResult where
  original_end_date : Nat
  simulated_end_date : Nat
  delta_days : Int
  trade_stacking_conflicts : List TradeStacking
  resource_impacts : List ResourceImpact
  cost_impact : ℚ
  risk_score_change : ℚ
  flowline_zones : List String
  flowline_trades : List (String × List FlowlineSeg)
  warnings : List String
deriving DecidableEq, Inhabited

/-- `TaktSimulator.simulate_what_if`.  `today` stands for `date.today()`,
consumed only by `_grid_end_date` on empty grids. -/
def simulateWhatIf (today : Nat) (req : WhatIfRequest) : SimulationResult :=
  let base := req.base_plan
  let orig := recalculateGrid base.zones base.wagons base.takt_time base.start_date
    base.working_days base.buffer_days []
  let orig_end := gridEndDate today orig
  let st0 : PlanState :=
    { zones := base.zones, wagons := base.wagons, takt := base.takt_time,
      buffer := base.buffer_days, zone_delays := [], resource_impacts := [],
      warnings := [] }
  let st := req.changes.foldl (fun s c => applyChange c s) st0
  let sim := recalculateGrid st.zones st.wagons st.takt base.start_date
    base.working_days st.buffer st.zone_delays
  let sim_end := gridEndDate today sim
  let stacking := detectStacking sim
  let delta : Int := (sim_end : Int) - (orig_end : Int)
  let cost := totalCost sim st.wagons - totalCost orig base.wagons
  let risk := computeRiskScore delta stacking.length st.zones.length st.wagons.length
  let fl := computeFlowline sim st.zones
  { original_end_date := orig_end, simulated_end_date := sim_end,
    delta_days := delta, trade_stacking_conflicts := stacking,
    resource_impacts := st.resource_impacts, cost_impact := roundTo 2 cost,
    risk_score_change := roundTo 4 risk, flowline_zones := fl.1,
    flowline_trades := fl.2, warnings := st.warnings }

-- ---------------------------------------------------------------------------
-- Scenario comparison (`compare_scenarios`)
-- ---------------------------------------------------------------------------

structure CompareRequest where
  plan_id : String
  base_plan : BasePlan
  scenarios : List (List SimulationChange)
deriving DecidableEq

/-- `CompareResult` of `schemas.py` (the templated justification string is
not modelled; no claim concerns it). -/
structure CompareResult where
  scenarios : List SimulationResult
  recommendation_index : Nat
deriving DecidableEq

/-- The per-scenario score of `compare_scenarios`:
`delta_days + 5 * conflicts + max(cost_impact, 0)/1000 + risk * 10`. -/
def scoreOf (r : SimulationResult) : ℚ :=
  (r.delta_days : ℚ) + (r.trade_stacking_conflicts.length : ℚ) * 5 +
    max r.cost_impact 0 / 1000 + r.risk_score_change * 10

/-- The selection loop: `best_score` starts at `float("inf")` (modelled as
`none`) and is replaced only on strict `<`, so the first minimum wins. -/
def selectBestGo : List ℚ → Nat → Nat → Option ℚ → Nat
  | [], _, best_idx, _ => best_idx
  | s :: rest, i, best_idx, best_score =>
      match best_score with
      | none => selectBestGo rest (i + 1) i (some s)
      | some b =>
          if s < b then selectBestGo rest (i + 1) i (some s)
          else selectBestGo rest (i + 1) best_idx (some b)

def selectBest (scores : List ℚ) : Nat := selectBestGo scores 0 0 none

/-- `TaktSimulator.compare_scenarios`. -/
def compareScenarios (today : Nat) (req : CompareRequest) : CompareResult :=
  let results := req.scenarios.map fun sc =>
    simulateWhatIf today
      { plan_id := req.plan_id, base_plan := req.base_plan, changes := sc }
  { scenarios := results, recommendation_index := selectBest (results.map scoreOf) }

-- ---------------------------------------------------------------------------
-- Monte Carlo request schema and sampling transform
-- ---------------------------------------------------------------------------

/-- `MonteCarloRequest` of `schemas.py`. -/
structure MonteCarloRequest where
  plan_id : String
  base_plan : BasePlan
  iterations : Int
  duration_variance_pct : ℚ
  delay_probability : ℚ
deriving DecidableEq

/-- The pydantic `Field` bounds of `MonteCarloRequest`: `iterations` in
100–100000, `duration_variance_pct` and `delay_probability` in 0–1.  The
embedded `Wagon`, `Zone` and `BasePlan` declare no bounds at all, so nothing
else is validated before `simulate_monte_carlo` runs. -/
def monteCarloSchemaValid (r : MonteCarloRequest) : Bool :=
  decide (100 ≤ r.iterations) && decide (r.iterations ≤ 100000) &&
  decide (0 ≤ r.duration_variance_pct) && decide (r.duration_variance_pct ≤ 1) &&
  decide (0 ≤ r.delay_probability) && decide (r.delay_probability ≤ 1)

/-- The sampling scale of `simulate_monte_carlo`:
`np.maximum(planned * variance_pct, 0.5)`. -/
def mcScale (planned variance : ℚ) : ℚ := max (planned * variance) (1 / 2)

/-- A raw normal sample becomes a cell duration via
`np.maximum(sampled, 1.0)` and `np.ceil(...).astype(int64)`. -/
def mcSampleDuration (raw : ℚ) : Int := ⌈max raw 1⌉

/-- The delay-event indicator: `rng.random() < delay_probability` (uniform
draws are nonnegative, so probability 0 never fires). -/
def mcDelayMask (u p : ℚ) : Bool := u < p

-- ---------------------------------------------------------------------------
-- Flowline today-marker (`takt-engine/src/main.py`, `get_flowline`)
-- ---------------------------------------------------------------------------

/-- `get_flowline`'s today marker:
`days_from_start = (today - start_date).days; today_x = max(0, days_from_start)`
— a plain calendar-day difference. -/
def todayX (start today : Nat) : Int := max 0 ((today : Int) - (start : Int))

/-- The today marker as §4.3 of the spec words it: the working-day offset
from `start_date` to the current date, clamped at zero (number of configured
working days in `[start, today)`). -/
def specTodayX (start today : Nat) (wd : List Nat) : Int :=
  (countWorkingFrom wd start (today - start) : Int)

-- ---------------------------------------------------------------------------
-- Properties of the comparator's selection loop
-- ---------------------------------------------------------------------------

theorem selectBestGo_some :
    ∀ (rest : List ℚ) (i bi : Nat) (b : ℚ),
      (selectBestGo rest i bi (some b) = bi ∧
        ∀ j (hj : j < rest.length), b ≤ rest.get ⟨j, hj⟩) ∨
      (∃ k, ∃ hk : k < rest.length,
        selectBestGo rest i bi (some b) = i + k ∧
        rest.get ⟨k, hk⟩ < b ∧
        (∀ j (hj : j < rest.length), rest.get ⟨k, hk⟩ ≤ rest.get ⟨j, hj⟩) ∧
        (∀ j (hj : j < rest.length), j < k → rest.get ⟨k, hk⟩ < rest.get ⟨j, hj⟩)) := by
  intro rest
  induction rest with
  | nil =>
      intro i bi b
      left
      exact ⟨rfl, fun j hj => by simp at hj⟩
  | cons s rest ih =>
      intro i bi b
      by_cases hlt : s < b
      · rw [selectBestGo, if_pos hlt]
        rcases ih (i + 1) i s with ⟨heq, hall⟩ | ⟨k, hk, heq, hklt, hmin, hfirst⟩
        · right
          refine ⟨0, by simp, by simpa using heq, by simpa using hlt, ?_, ?_⟩
          · intro j hj
            cases j with
            | zero => exact le_refl _
            | succ j' => simpa using hall j' (by simpa using hj)
          · intro j hj hj0; omega
        · right
          refine ⟨k + 1, by simpa using hk, by rw [heq]; omega, ?_, ?_, ?_⟩
          · simpa using lt_trans hklt hlt
          · intro j hj
            cases j with
            | zero => simpa using le_of_lt hklt
            | succ j' => simpa using hmin j' (by simpa using hj)
          · intro j hj hjk
            cases j with
            | zero => simpa using hklt
            | succ j' => simpa using hfirst j' (by simpa using hj) (by omega)
      · rw [selectBestGo, if_neg hlt]
        rcases ih (i + 1) bi b with ⟨heq, hall⟩ | ⟨k, hk, heq, hklt, hmin, hfirst⟩
        · left
          refine ⟨heq, ?_⟩
          intro j hj
          cases j with
          | zero => simpa using le_of_not_lt hlt
          | succ j' => simpa using hall j' (by simpa using hj)
        · right
          refine ⟨k + 1, by simpa using hk, by rw [heq]; omega, ?_, ?_, ?_⟩
          · simpa using hklt
          · intro j hj
            cases j with
            | zero => simpa using le_trans (le_of_lt hklt) (le_of_not_lt hlt)
            | succ j' => simpa using hmin j' (by simpa using hj)
          · intro j hj hjk
            cases j with
            | zero => simpa using lt_of_lt_of_le hklt (le_of_not_lt hlt)
            | succ j' => simpa using hfirst j' (by simpa using hj) (by omega)

/-- On a nonempty score list the selection loop returns a valid index whose
score is minimal, and every earlier index has a strictly larger score. -/
theorem selectBest_spec (l : List ℚ) (h : l ≠ []) :
    ∃ hlt : selectBest l < l.length,
      (∀ j (hj : j < l.length), l.get ⟨selectBest l, hlt⟩ ≤ l.get ⟨j, hj⟩) ∧
      (∀ j (hj : j < l.length), j < selectBest l →
        l.get ⟨selectBest l, hlt⟩ < l.get ⟨j, hj⟩) := by
  cases l with
  | nil => exact absurd rfl h
  | cons x xs =>
      have hstep : selectBest (x :: xs) = selectBestGo xs 1 0 (some x) := rfl
      rcases selectBestGo_some xs 1 0 x with ⟨heq, hall⟩ | ⟨k, hk, heq, hklt, hmin, hfirst⟩
      · have hsel : selectBest (x :: xs) = 0 := by rw [hstep, heq]
        refine ⟨by simp [hsel], ?_, ?_⟩
        · intro j hj
          cases j with
          | zero => simp [hsel]
          | succ j' =>
              simp only [hsel]
              simpa using hall j' (by simpa using hj)
        · intro j hj hj0
          rw [hsel] at hj0
          omega
      · have hsel : selectBest (x :: xs) = k + 1 := by rw [hstep, heq]; omega
        refine ⟨by simp [hsel]; omega, ?_, ?_⟩
        · intro j hj
          cases j with
          | zero => simp only [hsel]; simpa using le_of_lt hklt
          | succ j' =>
              simp only [hsel]
              simpa using hmin j' (by simpa using hj)
        · intro j hj hjk
          rw [hsel] at hjk
          cases j with
          | zero => simp only [hsel]; simpa using hklt
          | succ j' =>
              simp only [hsel]
              simpa using hfirst j' (by simpa using hj) (by omega)

-- ---------------------------------------------------------------------------
-- Behaviour on empty zone / wagon lists
-- ---------------------------------------------------------------------------

theorem applyChange_zones_nil {c : SimulationChange} {st : PlanState}
    (h : st.zones = []) : (applyChange c st).zones = [] := by
  rcases c with ⟨t, p⟩
  cases t <;> simp only [applyChange]
  case add_crew =>
      cases findWagon st.wagons p.trade_id <;> simp [h]
  case change_takt_time => simpa using h
  case move_trade =>
      cases findWagon st.wagons p.trade_id <;> simp [h]
  case add_buffer =>
      split <;> simpa using h
  case delay_zone =>
      cases hfz : findZone st.zones p.zone_id <;> simp [h]
  case remove_trade =>
      cases findWagon st.wagons p.trade_id <;> simp [h]
  case split_zone =>
      rw [h]
      simp [findZone]

theorem applyChange_wagons_nil {c : SimulationChange} {st : PlanState}
    (h : st.wagons = []) : (applyChange c st).wagons = [] := by
  rcases c with ⟨t, p⟩
  cases t <;> simp only [applyChange]
  case add_crew =>
      rw [h]
      simp [findWagon]
  case change_takt_time => simp [h]
  case move_trade =>
      rw [h]
      simp [findWagon]
  case add_buffer =>
      split <;> simpa using h
  case delay_zone =>
      cases hfz : findZone st.zones p.zone_id <;> simp [h]
  case remove_trade =>
      rw [h]
      simp [findWagon]
  case split_zone =>
      cases hfz : findZone st.zones p.zone_id <;> simp [h]
      split <;> simp [h]

theorem foldl_applyChange_zones_nil {changes : List SimulationChange} :
    ∀ {st : PlanState}, st.zones = [] →
      (changes.foldl (fun s c => applyChange c s) st).zones = [] := by
  induction changes with
  | nil => intro st h; simpa using h
  | cons c cs ih =>
      intro st h
      simp only [List.foldl_cons]
      exact ih (applyChange_zones_nil h)

theorem foldl_applyChange_wagons_nil {changes : List SimulationChange} :
    ∀ {st : PlanState}, st.wagons = [] →
      (changes.foldl (fun s c => applyChange c s) st).wagons = [] := by
  induction changes with
  | nil => intro st h; simpa using h
  | cons c cs ih =>
      intro st h
      simp only [List.foldl_cons]
      exact ih (applyChange_wagons_nil h)

theorem recalculateGrid_zones_nil {wagons : List Wagon} {takt : Int} {start : Nat}
    {wd : List Nat} {buffer : Int} {zd : List (String × Int)} :
    recalculateGrid [] wagons takt start wd buffer zd = [] := by
  rw [recalculateGrid]
  simp [sortByKey]

theorem recalculateGrid_wagons_nil {zones : List Zone} {takt : Int} {start : Nat}
    {wd : List Nat} {buffer : Int} {zd : List (String × Int)} :
    recalculateGrid zones [] takt start wd buffer zd = [] := by
  rw [recalculateGrid]
  simp [sortByKey]

theorem rhe_zero : rhe 0 = 0 := by
  norm_num [rhe]

theorem roundTo_zero (n : Nat) : roundTo n 0 = 0 := by
  norm_num [roundTo, rhe_zero]

theorem computeRiskScore_zero (nz nw : Nat) : computeRiskScore 0 0 nz nw = 0 := by
  simp only [computeRiskScore]
  norm_num

/-- With an empty zone list or an empty wagon list, `simulate_what_if` does not
fail: both grids are empty, both end dates fall back to today's date, and a
`SimulationResult` with no conflicts and zero deltas is returned. -/
theorem simulateWhatIf_empty (today : Nat) (req : WhatIfRequest)
    (h : req.base_plan.zones = [] ∨ req.base_plan.wagons = []) :
    (simulateWhatIf today req).original_end_date = today ∧
    (simulateWhatIf today req).simulated_end_date = today ∧
    (simulateWhatIf today req).delta_days = 0 ∧
    (simulateWhatIf today req).trade_stacking_conflicts = [] ∧
    (simulateWhatIf today req).cost_impact = 0 ∧
    (simulateWhatIf today req).risk_score_change = 0 := by
  have horig : recalculateGrid req.base_plan.zones req.base_plan.wagons
      req.base_plan.takt_time req.base_plan.start_date req.base_plan.working_days
      req.base_plan.buffer_days [] = [] := by
    rcases h with h | h <;> rw [h]
    · exact recalculateGrid_zones_nil
    · exact recalculateGrid_wagons_nil
  set st0 : PlanState :=
    { zones := req.base_plan.zones, wagons := req.base_plan.wagons,
      takt := req.base_plan.takt_time, buffer := req.base_plan.buffer_days,
      zone_delays := [], resource_impacts := [], warnings := [] } with hst0
  set st := req.changes.foldl (fun s c => applyChange c s) st0 with hst
  have hsim : recalculateGrid st.zones st.wagons st.takt req.base_plan.start_date
      req.base_plan.working_days st.buffer st.zone_delays = [] := by
    rcases h with h | h
    · have : st.zones = [] := by
        rw [hst]
        exact foldl_applyChange_zones_nil (by rw [hst0]; exact h)
      rw [this]
      exact recalculateGrid_zones_nil
    · have : st.wagons = [] := by
        rw [hst]
        exact foldl_applyChange_wagons_nil (by rw [hst0]; exact h)
      rw [this]
      exact recalculateGrid_wagons_nil
  show ((simulateWhatIf today req).original_end_date = today ∧ _)
  simp only [simulateWhatIf, ← hst0, ← hst, horig, hsim]
  refine ⟨rfl, rfl, by omega, rfl, ?_, ?_⟩
  · show roundTo 2 (totalCost [] st.wagons - totalCost [] req.base_plan.wagons) = 0
    have h1 : totalCost [] st.wagons = 0 := rfl
    have h2 : totalCost [] req.base_plan.wagons = 0 := rfl
    rw [h1, h2, sub_zero, roundTo_zero]
  · show roundTo 4 (computeRiskScore ((today : Int) - (today : Int))
      (detectStacking []).length st.zones.length st.wagons.length) = 0
    have hd : (today : Int) - (today : Int) = 0 := by omega
    have hl : (detectStacking []).length = 0 := rfl
    rw [hd, hl, computeRiskScore_zero, roundTo_zero]

-- ---------------------------------------------------------------------------
-- Decoding cell indices from the `period` counter
-- ---------------------------------------------------------------------------

theorem prod_index_unique {n a b c d : Nat} (hb : b < n) (hd : d < n)
    (h : a * n + b = c * n + d) : a = c ∧ b = d := by
  have hac : a = c := by
    rcases Nat.lt_trichotomy a c with hlt | heq | hgt
    · exfalso
      have h1 : a * n + b < (a + 1) * n := by
        have : (a + 1) * n = a * n + n := by ring
        omega
      have h2 : (a + 1) * n ≤ c * n := Nat.mul_le_mul_right n hlt
      omega
    · exact heq
    · exfalso
      have h1 : c * n + d < (c + 1) * n := by
        have : (c + 1) * n = c * n + n := by ring
        omega
      have h2 : (c + 1) * n ≤ a * n := Nat.mul_le_mul_right n hgt
      omega
  subst hac
  omega

theorem period_mod {wi zi n : Nat} (hzi : zi < n) : (wi * n + zi) % n = zi := by
  rw [Nat.mul_comm, Nat.mul_add_mod]
  exact Nat.mod_eq_of_lt hzi

-- ---------------------------------------------------------------------------
-- Assembled grid ordering property (dual precedence)
-- ---------------------------------------------------------------------------

/-- Dual precedence over the emitted assignment list.  `a` and `b` are grid
entries; `b.period = a.period + 1` with `a` not in the last zone pins `b` as
the same wagon's next zone; `b.period = a.period + zones.length` pins `b` as
the next wagon in the same zone. -/
theorem grid_dual_precedence {zones : List Zone} {wagons : List Wagon}
    {takt : Int} {start : Nat} {wd : List Nat} {buffer : Int}
    {zone_delays : List (String × Int)} {a b : Assignment}
    (ha : a ∈ recalculateGrid zones wagons takt start wd buffer zone_delays)
    (hb : b ∈ recalculateGrid zones wagons takt start wd buffer zone_delays) :
    (b.period = a.period + 1 → a.period % zones.length + 1 < zones.length →
      addWorkingDays a.end_date 1 wd ≤ b.start_date ∧ a.end_date < b.start_date) ∧
    (b.period = a.period + zones.length →
      addWorkingDays a.end_date (buffer + 1) wd ≤ b.start_date) := by
  obtain ⟨wi, zi, hwi, hzi, rfl⟩ := mem_recalculateGrid.mp ha
  obtain ⟨wi', zi', hwi', hzi', rfl⟩ := mem_recalculateGrid.mp hb
  set G := gridEnvOf (sortByKey Zone.sequence zones) (sortByKey Wagon.sequence wagons)
      start wd buffer zone_delays with hG
  have hlen : (sortByKey Zone.sequence zones).length = zones.length :=
    length_sortByKey _ _
  constructor
  · intro hper hmod
    simp only [mkAssignment, hlen] at hper hmod ⊢
    have hzimod : (wi * zones.length + zi) % zones.length = zi :=
      period_mod hzi
    rw [hzimod] at hmod
    have hsplit : wi' * zones.length + zi' = wi * zones.length + (zi + 1) := by omega
    obtain ⟨rfl, rfl⟩ := prod_index_unique hzi' (by omega) hsplit
    exact ⟨prevZone_le_cellStartD G _ _, finishD_lt_next_zone G _ _⟩
  · intro hper
    simp only [mkAssignment, hlen] at hper ⊢
    have hsplit : wi' * zones.length + zi' = (wi + 1) * zones.length + zi := by
      have : (wi + 1) * zones.length = wi * zones.length + zones.length := by ring
      omega
    obtain ⟨rfl, rfl⟩ := prod_index_unique hzi' hzi hsplit
    exact prevWagon_le_cellStartD G _ _

-- ---------------------------------------------------------------------------
-- Assembled refinement: Monte Carlo count recurrence vs calendar grid
-- ---------------------------------------------------------------------------

/-- The duration matrix `simulate_monte_carlo` would feed to the recurrence
when every sampled duration equals the plan: each cell of wagon row `i` is the
sorted wagon's `duration_days`. -/
def plannedDurMatrix (wagons : List Wagon) : Nat → Nat → Int := fun i _ =>
  (((sortByKey Wagon.sequence wagons)[i]?).map Wagon.duration_days).getD 0

theorem mc_recurrence_eq_grid_count (zones : List Zone) (wagons : List Wagon)
    (takt : Int) (start : Nat) (wd : List Nat) (buffer : Int) (today : Nat)
    (hz : zones ≠ []) (hw : wagons ≠ [])
    (hwd : hasWeekday wd) (hs : start % 7 ∈ wd) (hb : 0 ≤ buffer)
    (hdur : ∀ w ∈ wagons, 1 ≤ w.duration_days) :
    mcFinish buffer (plannedDurMatrix wagons) (wagons.length - 1) (zones.length - 1) =
      (workingDaysBetween start
        (gridEndDate today (recalculateGrid zones wagons takt start wd buffer [])) wd : Int) := by
  rw [gridEndDate_recalculateGrid hz hw]
  set G := gridEnvOf (sortByKey Zone.sequence zones) (sortByKey Wagon.sequence wagons)
      start wd buffer [] with hG
  have hdel : ∀ z, G.delay z = 0 := by
    intro z
    rw [hG]
    simp only [gridEnvOf]
    cases (sortByKey Zone.sequence zones)[z]? <;> simp [dictLookup]
  have hdurb : ∀ w', w' ≤ wagons.length - 1 → 1 ≤ G.dur w' := by
    intro w' hw'
    have hlt : w' < (sortByKey Wagon.sequence wagons).length := by
      rw [length_sortByKey]
      have := List.length_pos.mpr hw
      omega
    rw [hG]
    simp only [gridEnvOf, List.getElem?_eq_getElem hlt]
    have hmem : (sortByKey Wagon.sequence wagons)[w'] ∈ sortByKey Wagon.sequence wagons :=
      List.getElem_mem hlt
    have := hdur _ ((mem_sortByKey Wagon.sequence _ wagons).mp hmem)
    simpa using this
  have := workingDaysBetween_finishD G hwd hs hb hdel
    (wagons.length - 1) (zones.length - 1) hdurb
  exact this.symm

-- ---------------------------------------------------------------------------
-- Comparator properties
-- ---------------------------------------------------------------------------

theorem compareScenarios_scenarios_length (today : Nat) (req : CompareRequest) :
    (compareScenarios today req).scenarios.length = req.scenarios.length := by
  simp [compareScenarios]

theorem compareScenarios_rec_index (today : Nat) (req : CompareRequest) :
    (compareScenarios today req).recommendation_index =
      selectBest ((compareScenarios today req).scenarios.map scoreOf) := by
  simp [compareScenarios]

/-- A scenario whose score strictly exceeds some other scenario's score is
never recommended; with exactly two scenarios the other one is chosen. -/
theorem compareScenarios_not_recommended (today : Nat) (req : CompareRequest)
    {i j : Nat} {ri rj : SimulationResult}
    (hri : (compareScenarios today req).scenarios[i]? = some ri)
    (hrj : (compareScenarios today req).scenarios[j]? = some rj)
    (hscore : scoreOf ri < scoreOf rj) :
    (compareScenarios today req).recommendation_index ≠ j ∧
      (req.scenarios.length = 2 → i = 0 → j = 1 →
        (compareScenarios today req).recommendation_index = 0) := by
  set out := compareScenarios today req with hout
  have hi : i < out.scenarios.length := by
    by_contra hge
    rw [List.getElem?_eq_none (by omega)] at hri
    cases hri
  have hj : j < out.scenarios.length := by
    by_contra hge
    rw [List.getElem?_eq_none (by omega)] at hrj
    cases hrj
  have hri' : out.scenarios[i] = ri := by
    rw [List.getElem?_eq_getElem hi] at hri
    exact Option.some.inj hri
  have hrj' : out.scenarios[j] = rj := by
    rw [List.getElem?_eq_getElem hj] at hrj
    exact Option.some.inj hrj
  set scores := out.scenarios.map scoreOf with hscores
  have hlen : scores.length = out.scenarios.length := by simp [hscores]
  have hne : scores ≠ [] := by
    intro hnil
    rw [hnil] at hlen
    simp at hlen
    omega
  obtain ⟨hlt, hmin, _⟩ := selectBest_spec scores hne
  have hgi : scores.get ⟨i, by omega⟩ = scoreOf ri := by
    simp [hscores, hri']
  have hgj : scores.get ⟨j, by omega⟩ = scoreOf rj := by
    simp [hscores, hrj']
  have hij : scores.get ⟨selectBest scores, hlt⟩ ≤ scoreOf ri := by
    rw [← hgi]
    exact hmin i (by omega)
  have hrec : out.recommendation_index = selectBest scores := by
    rw [hout, compareScenarios_rec_index]
  have hnotj : out.recommendation_index ≠ j := by
    intro heqj
    rw [hrec] at heqj
    have : scores.get ⟨selectBest scores, hlt⟩ = scoreOf rj := by
      rw [← hgj]
      congr 1
      exact Fin.ext heqj
    rw [this] at hij
    exact absurd (lt_of_lt_of_le hscore hij) (lt_irrefl _)
  refine ⟨hnotj, ?_⟩
  intro h2 _ hj1
  have hlen2 : out.scenarios.length = 2 := by
    rw [hout, compareScenarios_scenarios_length, h2]
  rw [hrec] at hnotj ⊢
  rw [hlen] at hlt
  omega

-- ---------------------------------------------------------------------------
-- add_buffer with an unknown trade id
-- ---------------------------------------------------------------------------

/-- When `after_trade_id` is nonempty and unknown, `add_buffer` records the
warning but still increments the global buffer; nothing else changes. -/
theorem applyChange_add_buffer_unknown (st : PlanState) (p : ChangeParams)
    (hne : ¬ p.after_trade_id = "") (hun : findWagon st.wagons p.after_trade_id = none) :
    applyChange { type := ChangeType.add_buffer, parameters := p } st =
      { st with buffer := st.buffer + p.buffer_days,
                warnings := st.warnings ++
                  ["add_buffer: trade not found, applying buffer globally."] } := by
  simp only [applyChange]
  rw [if_pos ⟨hne, hun⟩]

-- ---------------------------------------------------------------------------
-- The today marker vs the spec's working-day offset
-- ---------------------------------------------------------------------------

theorem todayX_spec_relation (start today : Nat) (wd : List Nat) :
    specTodayX start today wd ≤ todayX start today ∧
    (today ≤ start → todayX start today = 0) ∧
    ((∀ x, start ≤ x → x < today → x % 7 ∈ wd) →
      todayX start today = specTodayX start today wd) := by
  refine ⟨?_, ?_, ?_⟩
  · have h1 := countWorkingFrom_le wd (today - start) start
    simp only [todayX, specTodayX]
    rw [max_def]
    split <;> omega
  · intro h
    simp only [todayX]
    rw [max_def]
    split <;> omega
  · intro hmem
    have hall := countWorkingFrom_all wd (today - start) start
      (fun x h1 h2 => hmem x h1 (by omega))
    simp only [todayX, specTodayX]
    rw [hall, max_def]
    split <;> omega

-- ---------------------------------------------------------------------------
-- Monte Carlo schema bounds and degenerate sampling
-- ---------------------------------------------------------------------------

theorem monteCarloSchemaValid_bounds (r : MonteCarloRequest)
    (h : monteCarloSchemaValid r = true) :
    100 ≤ r.iterations ∧ r.iterations ≤ 100000 ∧
    0 ≤ r.duration_variance_pct ∧ r.duration_variance_pct ≤ 1 ∧
    0 ≤ r.delay_probability ∧ r.delay_probability ≤ 1 := by
  simp only [monteCarloSchemaValid, Bool.and_eq_true, decide_eq_true_eq] at h
  tauto

theorem mcScale_variance_zero (planned : ℚ) : mcScale planned 0 = 1 / 2 := by
  simp [mcScale]

theorem mcDelayMask_prob_zero (u : ℚ) (hu : 0 ≤ u) : mcDelayMask u 0 = false := by
  simp only [mcDelayMask, decide_eq_false_iff_not, not_lt]
  exact hu

/-- `mcFinish` at cell `(w, z)` reads the duration matrix only at rows `≤ w`
and columns `≤ z`. -/
theorem mcFinish_congr (buffer : Int) (d d' : Nat → Nat → Int) :
    ∀ w z, (∀ a b, a ≤ w → b ≤ z → d a b = d' a b) →
      mcFinish buffer d w z = mcFinish buffer d' w z := by
  intro w
  induction w with
  | zero =>
      intro z
      induction z with
      | zero =>
          intro hd
          simp [mcFinish, mcRowAux, hd 0 0 (le_refl 0) (le_refl 0)]
      | succ z' ihz =>
          intro hd
          have hz' := ihz (fun a b ha hb => hd a b ha (by omega))
          simp only [mcFinish, mcRowAux] at *
          rw [hz', hd 0 (z' + 1) (le_refl 0) (le_refl _)]
  | succ w' ihw =>
      intro z
      induction z with
      | zero =>
          intro hd
          have hw' := ihw 0 (fun a b ha hb => hd a b (by omega) hb)
          simp only [mcFinish, mcRowAux] at *
          rw [hw', hd (w' + 1) 0 (le_refl _) (le_refl 0)]
      | succ z' ihz =>
          intro hd
          have hz' := ihz (fun a b ha hb => hd a b ha (by omega))
          have hw' := ihw (z' + 1) (fun a b ha hb => hd a b (by omega) hb)
          simp only [mcFinish, mcRowAux] at *
          rw [hz', hw', hd (w' + 1) (z' + 1) (le_refl _) (le_refl _)]

/-- A result strictly better on schedule delta, cost and conflicts, and no
worse on risk, has a strictly smaller comparator score. -/
theorem scoreOf_lt_of_beats {ri rj : SimulationResult}
    (hdelta : ri.delta_days < rj.delta_days)
    (hcost : ri.cost_impact < rj.cost_impact)
    (hconf : ri.trade_stacking_conflicts.length < rj.trade_stacking_conflicts.length)
    (hrisk : ri.risk_score_change ≤ rj.risk_score_change) :
    scoreOf ri < scoreOf rj := by
  unfold scoreOf
  have h1 : (ri.delta_days : ℚ) < (rj.delta_days : ℚ) := by exact_mod_cast hdelta
  have h2 : (ri.trade_stacking_conflicts.length : ℚ) ≤
      (rj.trade_stacking_conflicts.length : ℚ) := by exact_mod_cast hconf.le
  have h3 : max ri.cost_impact 0 ≤ max rj.cost_impact 0 := max_le_max hcost.le le_rfl
  have h4 : max ri.cost_impact 0 / 1000 ≤ max rj.cost_impact 0 / 1000 :=
    (div_le_div_iff_of_pos_right (by norm_num)).mpr h3
  linarith

-- ===========================================================================
-- Claims
-- ===========================================================================

-- Concrete fixtures shared by the witnesses and counterexamples.

def fixZone (i : String) (s : Int) : Zone := { id := i, name := i, sequence := s }

def fixWagon (i : String) (s d : Int) : Wagon :=
  { id := i, name := i, sequence := s, duration_days := d, crew_size := 1,
    cost_per_day := 0 }

/-- C1: in every grid computed by `_recalculate_grid` from nonempty zone and
wagon lists, a working-day set containing a weekday, and `buffer_days ≥ 0`,
the dual-precedence ordering holds for every pair of assignments: the same
wagon's next-zone assignment starts at least one working day after (hence
strictly after) the previous zone's end, and the same zone's next-wagon
assignment starts no earlier than the previous wagon's end advanced by
`buffer_days + 1` working days.  `b.period = a.period + 1` (with `a` not last
in its row) identifies the same-wagon successor; `b.period = a.period +
zones.length` identifies the same-zone successor. -/
theorem claim_C1_dual_precedence (zones : List Zone) (wagons : List Wagon)
    (takt : Int) (start : Nat) (wd : List Nat) (buffer : Int)
    (zone_delays : List (String × Int))
    (hz : zones ≠ []) (hw : wagons ≠ []) (hwd : hasWeekday wd) (hbuf : 0 ≤ buffer)
    (a b : Assignment)
    (ha : a ∈ recalculateGrid zones wagons takt start wd buffer zone_delays)
    (hb : b ∈ recalculateGrid zones wagons takt start wd buffer zone_delays) :
    (b.period = a.period + 1 → a.period % zones.length + 1 < zones.length →
      addWorkingDays a.end_date 1 wd ≤ b.start_date ∧ a.end_date < b.start_date) ∧
    (b.period = a.period + zones.length →
      addWorkingDays a.end_date (buffer + 1) wd ≤ b.start_date) :=
  grid_dual_precedence ha hb

/-- Witness for C1: the spec's end-to-end example (three zones, two wagons of
duration 5, buffer 0, start on a Monday, Mon–Fri working days).  W1 holds Z1
on days 0–4 and Z2 on days 7–11; W2 enters Z1 on day 7. -/
theorem claim_C1_dual_precedence_witness :
    hasWeekday [0, 1, 2, 3, 4] ∧
    (addWorkingDays 4 1 [0, 1, 2, 3, 4] ≤ 7 ∧ (4 : Nat) < 7) ∧
    addWorkingDays 4 (0 + 1) [0, 1, 2, 3, 4] ≤ 7 := by
  refine ⟨by decide, ?_, ?_⟩
  · exact (claim_C1_dual_precedence
      [fixZone "z1" 1, fixZone "z2" 2, fixZone "z3" 3]
      [fixWagon "w1" 1 5, fixWagon "w2" 2 5] 5 0 [0, 1, 2, 3, 4] 0 []
      (by decide) (by decide) (by decide) (by decide)
      { wagon_id := "w1", wagon_name := "w1", zone_id := "z1", zone_name := "z1",
        period := 0, start_date := 0, end_date := 4, duration_days := 5 }
      { wagon_id := "w1", wagon_name := "w1", zone_id := "z2", zone_name := "z2",
        period := 1, start_date := 7, end_date := 11, duration_days := 5 }
      (by decide) (by decide)).1 (by decide) (by decide)
  · exact (claim_C1_dual_precedence
      [fixZone "z1" 1, fixZone "z2" 2, fixZone "z3" 3]
      [fixWagon "w1" 1 5, fixWagon "w2" 2 5] 5 0 [0, 1, 2, 3, 4] 0 []
      (by decide) (by decide) (by decide) (by decide)
      { wagon_id := "w1", wagon_name := "w1", zone_id := "z1", zone_name := "z1",
        period := 0, start_date := 0, end_date := 4, duration_days := 5 }
      { wagon_id := "w2", wagon_name := "w2", zone_id := "z1", zone_name := "z1",
        period := 3, start_date := 7, end_date := 11, duration_days := 5 }
      (by decide) (by decide)).2 (by decide)

/-- C3: for per-wagon durations all ≥ 1, a start date on a working day, a
working-day set containing a weekday, a nonnegative buffer and no zone
delays, the Monte Carlo pure-count recurrence at the last cell equals the
inclusive working-day count from the start date to the calendar grid's latest
end date. -/
theorem claim_C3_recurrence_refines_grid (zones : List Zone) (wagons : List Wagon)
    (takt : Int) (start : Nat) (wd : List Nat) (buffer : Int) (today : Nat)
    (hz : zones ≠ []) (hw : wagons ≠ [])
    (hwd : hasWeekday wd) (hs : start % 7 ∈ wd) (hb : 0 ≤ buffer)
    (hdur : ∀ w ∈ wagons, 1 ≤ w.duration_days) :
    mcFinish buffer (plannedDurMatrix wagons) (wagons.length - 1) (zones.length - 1) =
      (workingDaysBetween start
        (gridEndDate today (recalculateGrid zones wagons takt start wd buffer []))
        wd : Int) :=
  mc_recurrence_eq_grid_count zones wagons takt start wd buffer today hz hw hwd hs hb hdur

/-- Witness for C3: two zones, wagons of durations 2 and 1, buffer 1, Mon–Fri
calendar; both sides equal 6 working days. -/
theorem claim_C3_recurrence_refines_grid_witness :
    mcFinish 1 (plannedDurMatrix [fixWagon "w1" 1 2, fixWagon "w2" 2 1]) 1 1 =
      (workingDaysBetween 0
        (gridEndDate 999 (recalculateGrid [fixZone "z1" 1, fixZone "z2" 2]
          [fixWagon "w1" 1 2, fixWagon "w2" 2 1] 1 0 [0, 1, 2, 3, 4] 1 []))
        [0, 1, 2, 3, 4] : Int) :=
  claim_C3_recurrence_refines_grid [fixZone "z1" 1, fixZone "z2" 2]
    [fixWagon "w1" 1 2, fixWagon "w2" 2 1] 1 0 [0, 1, 2, 3, 4] 1 999
    (by decide) (by decide) (by decide) (by decide) (by decide) (by decide)

/-- C9: with at least one working-day entry in 0–6, the `_next_working_day`
loop exits within 7 iterations and the `_add_working_days` loop within
`7 * days` iterations, agreeing with the total functions used by the grid
embedding (hence `_recalculate_grid` terminates); and the precondition is
necessary: if no entry is a weekday, neither loop ever exits. -/
theorem claim_C9_date_loop_termination (wd : List Nat) :
    (hasWeekday wd →
      ∀ d (days : Int),
        nextWorkingDayFuel 7 d wd = some (nextWorkingDay d wd) ∧
        addWorkingDaysFuel wd d days = some (addWorkingDays d days wd)) ∧
    ((∀ k ∈ wd, 7 ≤ k) →
      ∀ fuel d, nextWorkingDayFuel fuel d wd = none ∧
        ∀ days : Int, 1 ≤ days → addWorkingDaysFuel wd d days = none) :=
  ⟨fun h d days => ⟨nextWorkingDayFuel_seven h d, addWorkingDaysFuel_eq h d days⟩,
   fun h fuel d =>
     ⟨nextWorkingDayFuel_none h fuel d,
      fun _ hd => addWorkingDaysFuel_none h d hd⟩⟩

/-- Witness for C9: Mon–Fri working days; from Saturday (day 5) the next
working day is Monday (day 7); adding 3 working days to Friday (day 4) gives
Wednesday (day 9); with working-day set `[7]` the loop never exits. -/
theorem claim_C9_date_loop_termination_witness :
    hasWeekday [0, 1, 2, 3, 4] ∧
    nextWorkingDayFuel 7 5 [0, 1, 2, 3, 4] = some 7 ∧
    addWorkingDaysFuel [0, 1, 2, 3, 4] 4 3 = some 9 ∧
    nextWorkingDayFuel 1000 0 [7] = none := by
  refine ⟨by decide, ?_, ?_, ?_⟩
  · rw [((claim_C9_date_loop_termination [0, 1, 2, 3, 4]).1 (by decide) 5 3).1]
    decide
  · rw [((claim_C9_date_loop_termination [0, 1, 2, 3, 4]).1 (by decide) 4 3).2]
    decide
  · exact ((claim_C9_date_loop_termination [7]).2 (by decide) 1000 0).1

/-- C10: with at least one scenario, `compare_scenarios` returns a
recommendation index that is valid (0-based, within the scenario list) and is
the smallest index attaining the minimum score: the running best is replaced
only on a strictly smaller score, so ties keep the earlier scenario. -/
theorem claim_C10_recommendation_first_min (today : Nat) (req : CompareRequest)
    (h : req.scenarios ≠ []) :
    (compareScenarios today req).recommendation_index < req.scenarios.length ∧
    (∀ j, j < req.scenarios.length →
      ((compareScenarios today req).scenarios.map scoreOf).getD
          (compareScenarios today req).recommendation_index 0 ≤
        ((compareScenarios today req).scenarios.map scoreOf).getD j 0) ∧
    (∀ j, j < (compareScenarios today req).recommendation_index →
      ((compareScenarios today req).scenarios.map scoreOf).getD
          (compareScenarios today req).recommendation_index 0 <
        ((compareScenarios today req).scenarios.map scoreOf).getD j 0) := by
  set out := compareScenarios today req with hout
  set scores := out.scenarios.map scoreOf with hscores
  have hslen : scores.length = req.scenarios.length := by
    rw [hscores, List.length_map, hout, compareScenarios_scenarios_length]
  have hne : scores ≠ [] := by
    intro hnil
    rw [hnil] at hslen
    simp only [List.length_nil] at hslen
    exact h (List.length_eq_zero.mp hslen.symm)
  obtain ⟨hlt, hmin, hfirst⟩ := selectBest_spec scores hne
  have hrec : out.recommendation_index = selectBest scores := by
    rw [hout, compareScenarios_rec_index]
  have hreclt : out.recommendation_index < scores.length := by rw [hrec]; exact hlt
  have hbridge : ∀ k (hk : k < scores.length), scores.getD k 0 = scores.get ⟨k, hk⟩ := by
    intro k hk
    rw [List.getD_eq_getElem scores 0 hk, List.get_eq_getElem]
  refine ⟨by omega, ?_, ?_⟩
  · intro j hj
    have hj' : j < scores.length := by omega
    rw [hbridge _ hreclt, hbridge _ hj']
    have := hmin j hj'
    have heq : scores.get ⟨out.recommendation_index, hreclt⟩ =
        scores.get ⟨selectBest scores, hlt⟩ := by
      have hfin : (⟨out.recommendation_index, hreclt⟩ : Fin scores.length) =
          ⟨selectBest scores, hlt⟩ := Fin.ext hrec
      rw [hfin]
    rw [heq]
    exact this
  · intro j hj
    have hj' : j < scores.length := by omega
    rw [hbridge _ hreclt, hbridge _ hj']
    have heq : scores.get ⟨out.recommendation_index, hreclt⟩ =
        scores.get ⟨selectBest scores, hlt⟩ := by
      have hfin : (⟨out.recommendation_index, hreclt⟩ : Fin scores.length) =
          ⟨selectBest scores, hlt⟩ := Fin.ext hrec
      rw [hfin]
    rw [heq]
    exact hfirst j hj' (by omega)

def c10Req : CompareRequest :=
  { plan_id := "p",
    base_plan :=
      { zones := [fixZone "z1" 1, fixZone "z2" 2],
        wagons := [fixWagon "w1" 1 2, fixWagon "w2" 2 1],
        takt_time := 1, start_date := 0, working_days := [0, 1, 2, 3, 4],
        buffer_days := 0 },
    scenarios := [[],
      [{ type := ChangeType.delay_zone,
         parameters := { zone_id := "z1", delay_days := 1 } }]] }

set_option maxRecDepth 40000 in
/-- Witness for C10: a two-scenario comparison (no-op vs one-day zone delay);
the no-op scenario scores 0, the delayed one 39/10, and index 0 is returned. -/
theorem claim_C10_recommendation_first_min_witness :
    c10Req.scenarios ≠ [] ∧
    (compareScenarios 1000 c10Req).recommendation_index < c10Req.scenarios.length ∧
    (compareScenarios 1000 c10Req).recommendation_index = 0 := by
  refine ⟨by decide, (claim_C10_recommendation_first_min 1000 c10Req (by decide)).1, ?_⟩
  decide

def c5Req : WhatIfRequest :=
  { plan_id := "p",
    base_plan :=
      { zones := [], wagons := [fixWagon "w1" 1 3], takt_time := 5,
        start_date := 0, working_days := [0, 1, 2, 3, 4], buffer_days := 0 },
    changes := [] }

/-- Counterexample for C5: a what-if request whose base plan has an empty
zone list is not rejected — `simulate_what_if` returns a complete
`SimulationResult` (both end dates fall back to today's date, delta 0, no
conflicts, no warnings), so no "descriptive error" path exists. -/
theorem claim_C5_counterexample :
    simulateWhatIf 100 c5Req =
      { original_end_date := 100, simulated_end_date := 100, delta_days := 0,
        trade_stacking_conflicts := [], resource_impacts := [], cost_impact := 0,
        risk_score_change := 0, flowline_zones := [], flowline_trades := [],
        warnings := [] } := by decide

/-- C5 (amended): a change-free request whose base plan has an empty zone
list or an empty wagon list is not rejected; both grids are empty and the
`SimulationResult` is produced with both end dates equal to the current date,
`delta_days = 0`, no stacking conflicts, zero cost impact and zero risk
change.  (The statement is restricted to change-free requests: with a
nonempty change list the pipeline can instead die on an unhandled exception —
`add_crew` divides by the new crew size, which no schema bound keeps away
from zero — so only the change-free shape is guaranteed to return.) -/
theorem claim_C5_amended_empty_grid (today : Nat) (req : WhatIfRequest)
    (h : req.base_plan.zones = [] ∨ req.base_plan.wagons = [])
    (hc : req.changes = []) :
    (simulateWhatIf today req).original_end_date = today ∧
    (simulateWhatIf today req).simulated_end_date = today ∧
    (simulateWhatIf today req).delta_days = 0 ∧
    (simulateWhatIf today req).trade_stacking_conflicts = [] ∧
    (simulateWhatIf today req).cost_impact = 0 ∧
    (simulateWhatIf today req).risk_score_change = 0 := by
  clear hc
  exact simulateWhatIf_empty today req h

/-- Witness for C5 (amended), at the concrete empty-zones change-free
request. -/
theorem claim_C5_amended_empty_grid_witness :
    c5Req.base_plan.zones = [] ∧ c5Req.changes = [] ∧
    (simulateWhatIf 100 c5Req).delta_days = 0 :=
  ⟨by decide, by decide,
   (claim_C5_amended_empty_grid 100 c5Req (Or.inl (by decide))
     (by decide)).2.2.1⟩

def c6St : PlanState :=
  { zones := [fixZone "z1" 1], wagons := [fixWagon "w1" 1 3], takt := 5,
    buffer := 3, zone_delays := [], resource_impacts := [], warnings := [] }

def c6Change : SimulationChange :=
  { type := ChangeType.add_buffer,
    parameters := { after_trade_id := "ghost", buffer_days := 2 } }

/-- Counterexample for C6: an `add_buffer` change whose `after_trade_id`
matches no wagon records the warning but does NOT skip the mutation — the
global `buffer_days` still grows from 3 to 5. -/
theorem claim_C6_counterexample :
    (applyChange c6Change c6St).buffer = 5 ∧
    ¬ (applyChange c6Change c6St).buffer = c6St.buffer ∧
    (applyChange c6Change c6St).warnings =
      ["add_buffer: trade not found, applying buffer globally."] := by decide

/-- C6 (amended): for an `add_buffer` change whose nonempty `after_trade_id`
matches no wagon, the Change Applier records a non-fatal warning and still
applies the buffer globally: `buffer_days` is incremented by the change's
amount while zones, wagons, zone delays and resource impacts are untouched
and the pipeline continues. -/
theorem claim_C6_amended_buffer_still_applied (st : PlanState) (p : ChangeParams)
    (hne : ¬ p.after_trade_id = "")
    (hun : findWagon st.wagons p.after_trade_id = none) :
    applyChange { type := ChangeType.add_buffer, parameters := p } st =
      { st with buffer := st.buffer + p.buffer_days,
                warnings := st.warnings ++
                  ["add_buffer: trade not found, applying buffer globally."] } :=
  applyChange_add_buffer_unknown st p hne hun

/-- Witness for C6 (amended), at the concrete unknown-trade change. -/
theorem claim_C6_amended_buffer_still_applied_witness :
    ¬ ("ghost" : String) = "" ∧
    findWagon c6St.wagons "ghost" = none ∧
    (applyChange c6Change c6St).buffer = 5 := by
  refine ⟨by decide, by decide, ?_⟩
  have hc : c6Change = ⟨ChangeType.add_buffer, { after_trade_id := "ghost", buffer_days := 2 }⟩ := rfl
  rw [hc, claim_C6_amended_buffer_still_applied c6St
    { after_trade_id := "ghost", buffer_days := 2 } (by decide) (by decide)]
  decide

/-- Counterexample for C7: with Mon–Fri working days, a plan starting on
Monday (day 0) and the current date the following Monday (day 7), the
flowline's `today_x` is the raw calendar difference 7, not the working-day
offset 5 demanded by the spec. -/
theorem claim_C7_counterexample :
    todayX 0 7 = 7 ∧ specTodayX 0 7 [0, 1, 2, 3, 4] = 5 ∧
    ¬ todayX 0 7 = specTodayX 0 7 [0, 1, 2, 3, 4] := by decide

/-- C7 (amended): `today_x` equals the plain calendar-day difference clamped
at zero, ignoring the working-day calendar; it is always at least the
working-day offset, is 0 whenever the current date is not after the start
date, and coincides with the working-day offset exactly when every calendar
day from the start date up to the current date is a working day. -/
theorem claim_C7_amended_today_marker (start today : Nat) (wd : List Nat) :
    specTodayX start today wd ≤ todayX start today ∧
    (today ≤ start → todayX start today = 0) ∧
    ((∀ x, start ≤ x → x < today → x % 7 ∈ wd) →
      todayX start today = specTodayX start today wd) :=
  todayX_spec_relation start today wd

/-- Witness for C7 (amended): start Monday day 0, current date Friday day 4,
all days in between working. -/
theorem claim_C7_amended_today_marker_witness :
    specTodayX 0 7 [0, 1, 2, 3, 4] ≤ todayX 0 7 ∧ todayX 0 4 = specTodayX 0 4 [0, 1, 2, 3, 4] :=
  ⟨(claim_C7_amended_today_marker 0 7 [0, 1, 2, 3, 4]).1,
   (claim_C7_amended_today_marker 0 4 [0, 1, 2, 3, 4]).2.2 (by decide)⟩

def c8Req : MonteCarloRequest :=
  { plan_id := "p",
    base_plan :=
      { zones := [fixZone "z1" 1],
        wagons := [{ id := "w1", name := "W1", sequence := 1, duration_days := 31,
                     crew_size := 1, cost_per_day := 0 }],
        takt_time := 50, start_date := 0, working_days := [0, 1, 2, 3, 4],
        buffer_days := 0 },
    iterations := 1000, duration_variance_pct := 1 / 5, delay_probability := 1 / 10 }

/-- Counterexample for C8: a Monte Carlo request with a wagon duration of 31
days and a takt time of 50 passes every bound the schema enforces, and the
core computes its grid rather than rejecting it — no defensive re-validation
of `duration_days`, `takt_time` or the zone/wagon counts exists. -/
theorem claim_C8_counterexample :
    monteCarloSchemaValid c8Req = true ∧
    c8Req.base_plan.wagons.map Wagon.duration_days = [31] ∧
    ¬ ((31 : Int) ≤ 30) ∧
    ¬ (c8Req.base_plan.takt_time ≤ 30) ∧
    (recalculateGrid c8Req.base_plan.zones c8Req.base_plan.wagons
      c8Req.base_plan.takt_time c8Req.base_plan.start_date
      c8Req.base_plan.working_days c8Req.base_plan.buffer_days []).length = 1 := by
  decide

/-- C8 (amended): the only bounds enforced before the core runs are the
pydantic ones on `MonteCarloRequest` itself — `iterations` in 100–100000 and
`duration_variance_pct`/`delay_probability` in 0–1; wagon `duration_days`,
`takt_time` and the zone/wagon counts are not validated anywhere on the path
into `simulate_monte_carlo`. -/
theorem claim_C8_amended_schema_bounds (r : MonteCarloRequest)
    (h : monteCarloSchemaValid r = true) :
    100 ≤ r.iterations ∧ r.iterations ≤ 100000 ∧
    0 ≤ r.duration_variance_pct ∧ r.duration_variance_pct ≤ 1 ∧
    0 ≤ r.delay_probability ∧ r.delay_probability ≤ 1 :=
  monteCarloSchemaValid_bounds r h

/-- Witness for C8 (amended), at the concrete request. -/
theorem claim_C8_amended_schema_bounds_witness :
    monteCarloSchemaValid c8Req = true ∧ 100 ≤ c8Req.iterations :=
  ⟨by decide, (claim_C8_amended_schema_bounds c8Req (by decide)).1⟩

/-- Counterexample for C2: with `duration_variance_pct = 0` the sampling
scale is floored at 0.5 rather than 0, so a raw normal sample of 5.5 (well
inside the support of `Normal(5, 0.5)`) is possible; it becomes a 6-day cell
duration, and the single-cell iteration total 6 differs from the
deterministic baseline of 5 working days — refuting "every iteration equals
the baseline", and with it `std_dev = 0` and `on_time_probability = 1`. -/
theorem claim_C2_counterexample :
    mcScale 5 0 = 1 / 2 ∧ ¬ mcScale 5 0 = 0 ∧
    mcSampleDuration (11 / 2) = 6 ∧
    mcFinish 0 (fun _ _ => mcSampleDuration (11 / 2)) 0 0 = 6 ∧
    workingDaysBetween 0
      (gridEndDate 999 (recalculateGrid [fixZone "z1" 1] [fixWagon "w1" 1 5]
        5 0 [0, 1, 2, 3, 4] 0 [])) [0, 1, 2, 3, 4] = 5 ∧
    ¬ ((6 : Int) = 5) := by decide

/-- C2 (amended): with `duration_variance_pct = 0` and
`delay_probability = 0`, the sampling scale is `max(0, 0.5) = 0.5` (not 0) and
no delay events fire; an iteration whose sampled cell durations all round back
to the planned durations yields exactly the deterministic baseline's
working-day duration, but samples deviating by half a day or more (possible
at scale 0.5) change the total, so `on_time_probability = 1.0` and
`std_dev = 0` are not guaranteed. -/
theorem claim_C2_amended_degenerate (planned u : ℚ) (hu : 0 ≤ u)
    (zones : List Zone) (wagons : List Wagon) (takt : Int) (start : Nat)
    (wd : List Nat) (buffer : Int) (today : Nat) (raw : Nat → Nat → ℚ)
    (hz : zones ≠ []) (hw : wagons ≠ [])
    (hwd : hasWeekday wd) (hs : start % 7 ∈ wd) (hb : 0 ≤ buffer)
    (hdur : ∀ w ∈ wagons, 1 ≤ w.duration_days)
    (hraw : ∀ i, i ≤ wagons.length - 1 → ∀ j, j ≤ zones.length - 1 →
      mcSampleDuration (raw i j) = plannedDurMatrix wagons i j) :
    mcScale planned 0 = 1 / 2 ∧
    mcDelayMask u 0 = false ∧
    mcFinish buffer (fun i j => mcSampleDuration (raw i j))
        (wagons.length - 1) (zones.length - 1) =
      (workingDaysBetween start
        (gridEndDate today (recalculateGrid zones wagons takt start wd buffer []))
        wd : Int) := by
  refine ⟨mcScale_variance_zero planned, mcDelayMask_prob_zero u hu, ?_⟩
  rw [mcFinish_congr buffer _ (plannedDurMatrix wagons)
    (wagons.length - 1) (zones.length - 1)
    (fun a b ha hb2 => hraw a ha b hb2)]
  exact mc_recurrence_eq_grid_count zones wagons takt start wd buffer today
    hz hw hwd hs hb hdur

/-- Witness for C2 (amended): one zone, one 5-day wagon, raw samples exactly
the planned duration. -/
theorem claim_C2_amended_degenerate_witness :
    mcScale 7 0 = 1 / 2 ∧
    mcDelayMask (1 / 3) 0 = false ∧
    mcFinish 0 (fun i j => mcSampleDuration ((fun _ _ => (5 : ℚ)) i j)) 0 0 =
      (workingDaysBetween 0
        (gridEndDate 999 (recalculateGrid [fixZone "z1" 1] [fixWagon "w1" 1 5]
          5 0 [0, 1, 2, 3, 4] 0 [])) [0, 1, 2, 3, 4] : Int) :=
  claim_C2_amended_degenerate 7 (1 / 3) (by decide) [fixZone "z1" 1]
    [fixWagon "w1" 1 5] 5 0 [0, 1, 2, 3, 4] 0 999 (fun _ _ => (5 : ℚ))
    (by decide) (by decide) (by decide) (by decide) (by decide) (by decide)
    (by decide)

-- The C4 counterexample: base plan with four zones and five wagons
-- (durations 1, 2, 1, 1, 1; only W1 carries a daily cost).

def c4Base : BasePlan :=
  { zones := [fixZone "z1" 1, fixZone "z2" 2, fixZone "z3" 3, fixZone "z4" 4],
    wagons :=
      [{ id := "w1", name := "W1", sequence := 1, duration_days := 1,
         crew_size := 1, cost_per_day := 1 / 100 },
       fixWagon "w2" 2 2, fixWagon "w3" 3 1, fixWagon "w4" 4 1,
       fixWagon "w5" 5 1],
    takt_time := 1, start_date := 0, working_days := [0, 1, 2, 3, 4, 5, 6],
    buffer_days := 0 }

def c4ScenA : List SimulationChange :=
  [{ type := ChangeType.add_buffer,
     parameters := { after_trade_id := "w1", buffer_days := -1 } },
   { type := ChangeType.delay_zone,
     parameters := { zone_id := "z4", delay_days := 5 } }]

def c4ScenB : List SimulationChange :=
  [{ type := ChangeType.add_crew,
     parameters := { trade_id := "w2", additional_crew := 1 } },
   { type := ChangeType.split_zone,
     parameters := { zone_id := "z1",
                     split_into := (List.range 23).map (fun i => "s" ++ toString i) } },
   { type := ChangeType.add_buffer,
     parameters := { after_trade_id := "w1", buffer_days := -1 } },
   { type := ChangeType.delay_zone,
     parameters := { zone_id := "z1_split_2", delay_days := 1 } }]

def c4Req : CompareRequest :=
  { plan_id := "p", base_plan := c4Base, scenarios := [c4ScenA, c4ScenB] }

set_option maxRecDepth 400000 in
set_option maxHeartbeats 2000000 in
/-- Counterexample for C4: scenario A (negative buffer + a 5-day delay on the
last zone) strictly beats scenario B (crew added to W2, zone 1 split into 23
zones, negative buffer, 1-day delay on the third new zone) on all three of
delta_days (18 < 19), cost_impact (0 < 0.22) and conflict count (19 < 20) —
yet the comparator recommends B (index 1): B's much larger zone count shrinks
its normalized risk score (0.1492 vs 0.92), and the 10× risk term overturns
the dominance. -/
theorem claim_C4_counterexample :
    ((compareScenarios 1000 c4Req).scenarios.map
        (fun r => (r.delta_days, r.trade_stacking_conflicts.length, r.cost_impact)) =
      [(18, 19, 0), (19, 20, 11 / 50)]) ∧
    ((18 : Int) < 19 ∧ (19 : Nat) < 20 ∧ (0 : ℚ) < 11 / 50) ∧
    (compareScenarios 1000 c4Req).recommendation_index = 1 := by decide

/-- C4 (amended): if scenario A's result strictly beats scenario B's on
delta_days, cost_impact and conflict count AND has a risk_score_change no
larger than B's, the comparator never recommends B; with exactly these two
scenarios it selects A.  (The extra risk condition is forced: the score adds
`10 * risk_score_change`, whose normalization depends on each scenario's own
zone and wagon counts, so plain three-way dominance can be overturned.) -/
theorem claim_C4_amended_dominance (today : Nat) (req : CompareRequest) (i j : Nat)
    (hi : i < (compareScenarios today req).scenarios.length)
    (hj : j < (compareScenarios today req).scenarios.length)
    (hdelta : ((compareScenarios today req).scenarios.getD i default).delta_days <
      ((compareScenarios today req).scenarios.getD j default).delta_days)
    (hcost : ((compareScenarios today req).scenarios.getD i default).cost_impact <
      ((compareScenarios today req).scenarios.getD j default).cost_impact)
    (hconf : ((compareScenarios today req).scenarios.getD i
        default).trade_stacking_conflicts.length <
      ((compareScenarios today req).scenarios.getD j
        default).trade_stacking_conflicts.length)
    (hrisk : ((compareScenarios today req).scenarios.getD i default).risk_score_change ≤
      ((compareScenarios today req).scenarios.getD j default).risk_score_change) :
    (compareScenarios today req).recommendation_index ≠ j ∧
      (req.scenarios.length = 2 → i = 0 → j = 1 →
        (compareScenarios today req).recommendation_index = 0) := by
  have hri : (compareScenarios today req).scenarios[i]? =
      some ((compareScenarios today req).scenarios.getD i default) := by
    rw [List.getD_eq_getElem _ _ hi, List.getElem?_eq_getElem hi]
  have hrj : (compareScenarios today req).scenarios[j]? =
      some ((compareScenarios today req).scenarios.getD j default) := by
    rw [List.getD_eq_getElem _ _ hj, List.getElem?_eq_getElem hj]
  exact compareScenarios_not_recommended today req hri hrj
    (scoreOf_lt_of_beats hdelta hcost hconf hrisk)

-- Witness fixture for the amended C4: one zone, two costed wagons; scenario A
-- adds two crews to W1 (faster, cheaper, conflict-free), scenario B shrinks
-- the buffer to -1 (slower, same cost, one stacking conflict, higher risk).

def c4wReq : CompareRequest :=
  { plan_id := "p",
    base_plan :=
      { zones := [fixZone "z1" 1],
        wagons :=
          [{ id := "w1", name := "W1", sequence := 1, duration_days := 7,
             crew_size := 1, cost_per_day := 1 },
           { id := "w2", name := "W2", sequence := 2, duration_days := 2,
             crew_size := 1, cost_per_day := 1 }],
        takt_time := 1, start_date := 0, working_days := [0, 1, 2, 3, 4, 5, 6],
        buffer_days := 0 },
    scenarios :=
      [[{ type := ChangeType.add_crew,
          parameters := { trade_id := "w1", additional_crew := 2 } }],
       [{ type := ChangeType.add_buffer,
          parameters := { after_trade_id := "w1", buffer_days := -1 } }]] }

set_option maxRecDepth 40000 in
/-- Witness for C4 (amended): scenario 0 beats scenario 1 on all three
metrics and on risk, and index 0 is recommended. -/
theorem claim_C4_amended_dominance_witness :
    ((compareScenarios 1000 c4wReq).scenarios.getD 0 default).delta_days <
      ((compareScenarios 1000 c4wReq).scenarios.getD 1 default).delta_days ∧
    (compareScenarios 1000 c4wReq).recommendation_index = 0 :=
  ⟨by decide,
   (claim_C4_amended_dominance 1000 c4wReq 0 1 (by decide) (by decide)
     (by decide) (by decide) (by decide) (by decide)).2 (by decide) rfl rfl⟩
